import Mathlib

/-!
Shallow embedding of the concurrent copying collector in
`src/runtime/gc/collector/concurrent_copying.cc`.

Machine addresses are modelled as `Nat`.  Fatal `CHECK`/`DCHECK` failures are
modelled as `Except.error` (the spec states that the DCHECKs in the source are
hard checks: any invariant failure is fatal).  Concurrent interference on the
shared lock word of a from-space object is modelled by an explicit schedule of
observations, and the atomic lock-word operations are linearized.
-/

namespace CC

/-- Region classification as reported by `RegionSpace::GetRegionType` /
`IsIn{To,From,UnevacFrom}Space`; `nonRegion` covers addresses outside the
region space (non-moving, large-object and immune spaces). -/
inductive RegionType where
  | toSpace
  | fromSpace
  | unevacFromSpace
  | nonRegion
deriving DecidableEq, Repr

/-- Baker read-barrier state of an object (`ReadBarrier::WhitePtr` /
`ReadBarrier::GrayPtr`). -/
inductive RBColor where
  | white
  | gray
deriving DecidableEq, Repr

/-- Lock word of an object: either a forwarding address
(`LockWord::kForwardingAddress`) or any other state (unlocked, thin/fat lock,
hash code), collapsed into `word code`. -/
inductive LockWord where
  | fwd (addr : Nat)
  | word (code : Nat)
deriving DecidableEq, Repr

/-- Modelled from the spec: object-layout constant `kObjectAlignment` of the
object model (the `runtime/mirror` and `runtime/globals.h` headers are not in
`src/`): objects are 8-byte aligned. -/
def kObjectAlignment : Nat := 8

/-- Modelled from the spec: `space::RegionSpace::kAlignment`
(`region_space.h` is not in `src/`); region-space allocations use the object
alignment. -/
def kAlignment : Nat := 8

/-- Modelled from the spec: `space::RegionSpace::kRegionSize`
(`region_space.h` is not in `src/`); the spec gives a fixed region size of
1 MiB. -/
def kRegionSize : Nat := 1048576

/-- Modelled from the spec: instance size of `java.lang.Object` (a 32-bit
class pointer plus a 32-bit lock word). -/
def objectInstanceSize : Nat := 8

/-- Modelled from the spec: `mirror::Array::DataOffset(sizeof(int32_t))`: the
int-array header is the 8-byte object header plus a 4-byte length field. -/
def intArrayDataOffset : Nat := 12

/-- Component size of an int array (`sizeof(int32_t)`). -/
def intComponentSize : Nat := 4

/-- RoundUp(n, a) for a positive alignment `a`. -/
def roundUp (n a : Nat) : Nat := ((n + a - 1) / a) * a

/-- Class header installed by `FillWithDummyObject`: an int array of the given
length, or the root class `java.lang.Object`. -/
inductive DummyClass where
  | intArray (length : Nat)
  | javaLangObject
deriving DecidableEq, Repr

/-- `mirror::Array::SizeOf` for an int array. -/
def intArraySizeOf (length : Nat) : Nat := intArrayDataOffset + intComponentSize * length

/-- Embedding of `ConcurrentCopying::FillWithDummyObject`
(`concurrent_copying.cc:1855`).  Only the header/size computation and its
checks are modelled; the `memset`, the `Mark` of the (boot-image, hence
immune, returned-unchanged) int-array class, and the stores of the header
words are represented by the returned `DummyClass`. -/
def fillWithDummyObject (byteSize : Nat) : Except String DummyClass :=
  if byteSize % kObjectAlignment ≠ 0 then
    .error "CHECK_ALIGNED(byte_size, kObjectAlignment)"
  else if intArrayDataOffset > byteSize then
    -- An int array is too big. Use java.lang.Object.
    if byteSize = objectInstanceSize then .ok .javaLangObject
    else .error "CHECK_EQ(byte_size, java_lang_Object->GetObjectSize())"
  else
    -- Use an int array.
    let length := (byteSize - intArrayDataOffset) / intComponentSize
    if byteSize = intArraySizeOf length then .ok (.intArray length)
    else .error "CHECK_EQ(byte_size, dummy_obj->SizeOf())"

/-- Counter values read at the start of `ConcurrentCopying::ReclaimPhase`'s
RecordFree block (`concurrent_copying.cc:1472`). -/
structure ReclaimCounters where
  fromBytes : Nat
  fromObjects : Nat
  unevacFromBytes : Nat
  unevacFromObjects : Nat
  bytesMoved : Nat
  objectsMoved : Nat
  pauseNumObjects : Nat
  pauseNumBytes : Nat
deriving DecidableEq, Repr

/-- Embedding of the RecordFree block of `ConcurrentCopying::ReclaimPhase`
(`concurrent_copying.cc:1472-1505`).  `to_bytes`/`to_objects` are the
`bytes_moved_`/`objects_moved_` counters; the result is the
`ObjectBytePair(freed_objects, freed_bytes)` passed to `RecordFree`,
with the `int64_t` differences modelled as `Int`. -/
def reclaimRecordFree (accountingCheck : Bool) (c : ReclaimCounters) :
    Except String (Int × Int) :=
  if accountingCheck = true ∧ c.pauseNumObjects ≠ c.fromObjects + c.unevacFromObjects then
    .error "CHECK_EQ(from_space_num_objects_at_first_pause_, from_objects + unevac_from_objects)"
  else if accountingCheck = true ∧ c.pauseNumBytes ≠ c.fromBytes + c.unevacFromBytes then
    .error "CHECK_EQ(from_space_num_bytes_at_first_pause_, from_bytes + unevac_from_bytes)"
  else if ¬ c.objectsMoved ≤ c.fromObjects then
    .error "CHECK_LE(to_objects, from_objects)"
  else if ¬ c.bytesMoved ≤ c.fromBytes then
    .error "CHECK_LE(to_bytes, from_bytes)"
  else
    .ok ((c.fromObjects : Int) - (c.objectsMoved : Int),
         (c.fromBytes : Int) - (c.bytesMoved : Int))

/-- One iteration of the collector's forwarding-update retry loop, as observed
on the contended slot: the value seen by the re-read (`loadVal`), the value
the weak CAS compares against (`casVal`), and whether the weak CAS fails
spuriously. -/
structure SlotStep where
  loadVal : Option Nat
  casVal : Option Nat
  casSpurious : Bool
deriving DecidableEq, Repr

/-- Embedding of the shared retry loop of `ConcurrentCopying::Process`
(`concurrent_copying.cc:1763-1770`), `ConcurrentCopying::VisitRoots`
(`concurrent_copying.cc:1786-1791`) and `ConcurrentCopying::MarkRoot`
(`concurrent_copying.cc:1805-1810`):
`do { if (expected != load()) break; } while (!CasWeak(expected, newRef))`.
The result is the list of writes `(observed, installed)` the collector
performed on the slot; `none` means the schedule ended with the loop still
running. -/
def fieldUpdateLoop (expected newRef : Option Nat) :
    List SlotStep → Option (List (Option Nat × Option Nat))
  | [] => none
  | step :: rest =>
    if step.loadVal ≠ expected then
      -- It was updated by the mutator: break without writing.
      some []
    else if step.casVal = expected ∧ step.casSpurious = false then
      -- The weak CAS succeeded: the slot held `expected` and now holds `newRef`.
      some [(step.casVal, newRef)]
    else
      fieldUpdateLoop expected newRef rest

/-- Embedding of the field-update part of `ConcurrentCopying::Process`
(`concurrent_copying.cc:1752-1771`): when `Mark` returns the reference
unchanged the slot is left alone, otherwise the retry loop runs.  The value
`toRef` returned by `Mark(ref)` is passed in as a parameter. -/
def processFieldUpdate (ref toRef : Option Nat) (sched : List SlotStep) :
    Option (List (Option Nat × Option Nat)) :=
  if toRef = ref then some [] else fieldUpdateLoop ref toRef sched

/-- Embedding of the root-update part of `ConcurrentCopying::VisitRoots`
(`concurrent_copying.cc:1774-1793`) for one root slot. -/
def visitRootsUpdate (ref toRef : Option Nat) (sched : List SlotStep) :
    Option (List (Option Nat × Option Nat)) :=
  if toRef = ref then some [] else fieldUpdateLoop ref toRef sched

/-- Embedding of the root-update part of `ConcurrentCopying::MarkRoot`
(`concurrent_copying.cc:1795-1812`); the root is non-null
(`DCHECK(!root->IsNull())`). -/
def markRootUpdate (ref toRef : Nat) (sched : List SlotStep) :
    Option (List (Option Nat × Option Nat)) :=
  if toRef = ref then some [] else fieldUpdateLoop (some ref) (some toRef) sched

/-- State of the collector together with the heap metadata it consults.
Addresses are `Nat`.  Immutable per cycle: `useBaker`
(`kUseBakerReadBarrier`, a build flag), `regionType` (region roles are frozen
between the flip and `ClearFromSpace`), `sizeOf`, `immune`,
`nonMovingHasAddress`, `hasContinuousBitmap` (`GetContinuousSpaceBitmap` is
non-null at the address), `isReferenceClass`, `referent` (the referent field
is only updated by the external reference processor), `pendingNext`.
Mutable: the bitmaps, the read-barrier states `rb`, the lock words, the
object fields, the GC mark stack, the counters, and the skipped-blocks map.
`regionAllocQueue` and `nonMovingAllocQueue` are oracles for successive
`RegionSpace::AllocNonvirtual` and `non_moving_space_->Alloc` calls (an
exhausted queue is an allocation failure); `copySched` supplies, for each
iteration of `Copy`'s forwarding loop, the lock-word value concurrently
written to the from-space object between the copy's `memcpy` and its CAS
(`none` for no interference) and whether the weak CAS fails spuriously. -/
structure MarkState where
  useBaker : Bool
  regionType : Nat → RegionType
  sizeOf : Nat → Nat
  immune : Nat → Bool
  nonMovingHasAddress : Nat → Bool
  hasContinuousBitmap : Nat → Bool
  isReferenceClass : Nat → Bool
  referent : Nat → Option Nat
  pendingNext : Nat → Option Nat
  regionBitmap : List Nat
  contBitmap : List Nat
  losBitmap : List Nat
  allocStack : List Nat
  rb : Nat → RBColor
  lockWord : Nat → LockWord
  fields : Nat → List (Option Nat)
  gcMarkStack : List Nat
  falseGrayStack : List Nat
  objectsMoved : Nat
  bytesMoved : Nat
  skippedBlocksMap : List (Nat × Nat)
  toSpaceBytesSkipped : Nat
  toSpaceObjectsSkipped : Nat
  numBytesAllocated : Nat
  liveBytes : Nat
  regionAllocQueue : List (Option Nat)
  nonMovingAllocQueue : List (Option (Nat × Nat))
  copySched : List (Option LockWord × Bool)
  isAsserting : Bool
  updatedAllImmune : Bool
  gcGraysImmune : Bool
  isGcThread : Bool
  toSpaceInvariantChecks : Bool

/-- `ConcurrentCopying::PushOntoMarkStack` as performed by the GC-running
thread (`concurrent_copying.cc:832-897`): a `PushBack` onto the GC mark
stack. -/
def pushMarkStack (s : MarkState) (toRef : Nat) : MarkState :=
  { s with gcMarkStack := s.gcMarkStack ++ [toRef] }

/-- Modelled from the spec: `ConcurrentCopying::GetFwdPtr`
(`concurrent_copying-inl.h` is not in `src/`): read the from-space object's
lock word and return the forwarding address if one is installed. -/
def getFwdPtr (s : MarkState) (ref : Nat) : Option Nat :=
  match s.lockWord ref with
  | .fwd a => some a
  | .word _ => none

/-- Embedding of `ConcurrentCopying::IsOnAllocStack`
(`concurrent_copying.cc:2138-2142`). -/
def isOnAllocStack (s : MarkState) (ref : Nat) : Bool :=
  decide (ref ∈ s.allocStack)

/-- Embedding of `ConcurrentCopying::IsMarked`
(`concurrent_copying.cc:2085-2136`); never copies, only reports. -/
def isMarked (s : MarkState) (ref : Nat) : Option Nat :=
  match s.regionType ref with
  | .toSpace => some ref
  | .fromSpace => getFwdPtr s ref
  | .unevacFromSpace => if ref ∈ s.regionBitmap then some ref else none
  | .nonRegion =>
    if s.immune ref then some ref
    else
      let isLos := ¬ s.hasContinuousBitmap ref
      if ¬ isLos ∧ ref ∈ s.contBitmap then some ref
      else if isLos ∧ ref ∈ s.losBitmap then some ref
      else if isOnAllocStack s ref then some ref
      else none

/-- Modelled from the spec: `ConcurrentCopying::IsInToSpace`
(`concurrent_copying.h` is not in `src/`): a reference counts as "in
to-space" (already copied or marked in place) when `IsMarked` returns it
unchanged. -/
def isInToSpace (s : MarkState) (ref : Nat) : Bool :=
  decide (isMarked s ref = some ref)

/-- Embedding of `ConcurrentCopying::AssertToSpaceInvariantInNonMovingSpace`
(`concurrent_copying.cc:1662-1696`) as a predicate: `true` means every CHECK
in it passes. -/
def assertToSpaceInvariantInNonMovingSpace (s : MarkState) (ref : Nat) : Bool :=
  if s.immune ref then
    if s.useBaker then
      if s.isGcThread ∧ ¬ s.gcGraysImmune then true
      else decide (s.updatedAllImmune = true ∨ s.rb ref = .gray)
    else true
  else
    let isLos := ¬ s.hasContinuousBitmap ref
    if (¬ isLos ∧ ref ∈ s.contBitmap) ∨ (isLos ∧ ref ∈ s.losBitmap) then true
    else isOnAllocStack s ref

/-- Embedding of `ConcurrentCopying::AssertToSpaceInvariant`
(`concurrent_copying.cc:1532-1552`) as a predicate: `true` means every CHECK
in it passes (in particular, a from-space reference fails). -/
def assertToSpaceInvariant (s : MarkState) (ref : Nat) : Bool :=
  if s.isAsserting then
    match s.regionType ref with
    | .toSpace => true
    | .unevacFromSpace => decide (ref ∈ s.regionBitmap)
    | .fromSpace => false
    | .nonRegion => assertToSpaceInvariantInNonMovingSpace s ref
  else true

/-- The reference fields the verification sweep visits for an object: its
ordinary reference fields plus, for a `Reference`-class object, the referent
(`VerifyNoFromSpaceRefsFieldVisitor::operator()(klass, ref)` re-dispatches on
the referent offset, `concurrent_copying.cc:950-954`). -/
def objectOutRefs (s : MarkState) (a : Nat) : List (Option Nat) :=
  s.fields a ++ (if s.isReferenceClass a then [s.referent a] else [])

/-- Embedding of `ConcurrentCopying::VerifyNoFromSpaceRefsVisitor`
(`concurrent_copying.cc:909-936`): null is OK, otherwise the to-space
invariant is asserted and, in Baker mode, the reference must be white. -/
def verifyNoFromSpaceRefsRef (s : MarkState) (ref : Option Nat) : Bool :=
  match ref with
  | none => true
  | some r =>
    assertToSpaceInvariant s r && (if s.useBaker then decide (s.rb r = .white) else true)

/-- Embedding of `ConcurrentCopying::VerifyNoFromSpaceRefsObjectVisitor`
(`concurrent_copying.cc:973-997`): the object is not in from-space, every
visited reference passes the reference visitor, and in Baker mode the object
itself is white. -/
def verifyNoFromSpaceRefsObject (s : MarkState) (obj : Nat) : Bool :=
  decide (s.regionType obj ≠ .fromSpace) &&
  (objectOutRefs s obj).all (verifyNoFromSpaceRefsRef s) &&
  (if s.useBaker then decide (s.rb obj = .white) else true)

/-- Embedding of `ConcurrentCopying::VerifyNoFromSpaceReferences`
(`concurrent_copying.cc:1000-1039`).  The heap walks are abstracted by the
enumerations they produce: `roots` (the runtime's roots), `toObjs`
(`WalkToSpace`), `nmObjs` (the objects set in the heap mark bitmaps), and
`allocObjs` (the non-null allocation-stack entries with a non-null class). -/
def verifyNoFromSpaceReferences (s : MarkState) (roots : List Nat)
    (toObjs nmObjs allocObjs : List Nat) : Bool :=
  roots.all (fun r => verifyNoFromSpaceRefsRef s (some r)) &&
  toObjs.all (verifyNoFromSpaceRefsObject s) &&
  nmObjs.all (verifyNoFromSpaceRefsObject s) &&
  allocObjs.all (fun o =>
    verifyNoFromSpaceRefsRef s (some o) && verifyNoFromSpaceRefsObject s o)

/-- References reachable from the roots through the reference fields (and
referents) of heap objects. -/
inductive Reachable (s : MarkState) (roots : List Nat) : Nat → Prop where
  | root (r : Nat) : r ∈ roots → Reachable s roots r
  | step (a b : Nat) : Reachable s roots a → some b ∈ objectOutRefs s a →
      Reachable s roots b

/-- Embedding of `ConcurrentCopying::AssertToSpaceInvariantObjectVisitor`
(`concurrent_copying.cc:1094-1115`): object not in from-space, the invariant
holds for the object and for each of its plain reference fields (the
field visitor's klass operator only checks class-ness,
`concurrent_copying.cc:1072-1075`). -/
def assertToSpaceInvariantObject (s : MarkState) (obj : Nat) : Bool :=
  decide (s.regionType obj ≠ .fromSpace) &&
  assertToSpaceInvariant s obj &&
  (s.fields obj).all (fun r =>
    match r with
    | none => true
    | some x => assertToSpaceInvariant s x)

/-- RoundUp(sizeof(mirror::Object), space::RegionSpace::kAlignment), the
minimum size of a reusable block remainder
(`concurrent_copying.cc:1899`). -/
def minObjectSize : Nat := roundUp objectInstanceSize kAlignment

/-- First entry of the skipped-blocks multimap (kept sorted by byte size)
whose key is at least `sz`: `skipped_blocks_map_.lower_bound(sz)`. -/
def lowerBound (m : List (Nat × Nat)) (sz : Nat) : Option (Nat × Nat) :=
  m.find? (fun p => sz ≤ p.1)

/-- Ordered insertion into the skipped-blocks multimap. -/
def insertSkipped (e : Nat × Nat) : List (Nat × Nat) → List (Nat × Nat)
  | [] => [e]
  | p :: rest => if e.1 ≤ p.1 then e :: p :: rest else p :: insertSkipped e rest

/-- The lookup/split logic of `ConcurrentCopying::AllocateInSkippedBlock`
(`concurrent_copying.cc:1895-1951`) on the skipped-blocks map itself: find a
block of at least `allocSize` bytes (retrying with
`allocSize + minObjectSize` when the remainder would be too small for a
dummy object), erase it, and return the remainder to the map behind a dummy
object.  Returns the chosen address and the updated map. -/
def skippedBlockLookup (m : List (Nat × Nat)) (allocSize : Nat)
    (regionTypeOf : Nat → RegionType) :
    Except String (Option (Nat × List (Nat × Nat))) :=
  if allocSize % kAlignment ≠ 0 then .error "CHECK_ALIGNED(alloc_size, kAlignment)"
  else
    match lowerBound m allocSize with
    | none => .ok none
    | some (k, a) =>
      let chosen : Option (Nat × Nat) :=
        if k > allocSize ∧ k - allocSize < minObjectSize then
          lowerBound m (allocSize + minObjectSize)
        else some (k, a)
      match chosen with
      | none => .ok none
      | some (byteSize, addr) =>
        if byteSize < allocSize then .error "CHECK_GE(byte_size, alloc_size)"
        else if regionTypeOf addr ≠ .toSpace then
          .error "CHECK(region_space_->IsInToSpace(addr))"
        else if byteSize % kAlignment ≠ 0 then
          .error "CHECK_ALIGNED(byte_size, kAlignment)"
        else
          let m1 := m.erase (byteSize, addr)
          if byteSize > allocSize then
            if byteSize - allocSize < minObjectSize then
              .error "CHECK_GE(byte_size - alloc_size, min_object_size)"
            else
              match fillWithDummyObject (byteSize - allocSize) with
              | .error e => .error e
              | .ok _ =>
                if regionTypeOf (addr + allocSize) ≠ .toSpace then
                  .error "CHECK(region_space_->IsInToSpace(addr + alloc_size))"
                else
                  .ok (some (addr, insertSkipped (byteSize - allocSize, addr + allocSize) m1))
          else .ok (some (addr, m1))

/-- Embedding of `ConcurrentCopying::AllocateInSkippedBlock`
(`concurrent_copying.cc:1895-1951`): run the lookup on the skipped-blocks
map and install the updated map. -/
def allocateInSkippedBlock (s : MarkState) (allocSize : Nat) :
    Except String (Option Nat × MarkState) :=
  match skippedBlockLookup s.skippedBlocksMap allocSize s.regionType with
  | .error e => .error e
  | .ok none => .ok (none, s)
  | .ok (some (addr, m)) => .ok (some addr, { s with skippedBlocksMap := m })

/-- Embedding of the allocation cascade of `ConcurrentCopying::Copy`
(`concurrent_copying.cc:1960-2001`): region space, then skipped blocks, then
the non-moving space (which marks the mark bitmap and whose failure is a
fatal CHECK).  Returns `(to_ref, bytes_allocated, fall_back_to_non_moving,
state)`.  The stats-only `RecordAlloc` of the TLAB case is elided. -/
def copyAllocate (s : MarkState) (allocSize : Nat) :
    Except String (Nat × Nat × Bool × MarkState) :=
  match s.regionAllocQueue.head?.getD none with
  | some addr =>
    -- DCHECK_EQ(region_space_alloc_size, region_space_bytes_allocated)
    .ok (addr, allocSize, false, { s with regionAllocQueue := s.regionAllocQueue.tail })
  | none =>
    match allocateInSkippedBlock { s with regionAllocQueue := s.regionAllocQueue.tail }
        allocSize with
    | .error e => .error e
    | .ok (some addr, s1) => .ok (addr, allocSize, false, s1)
    | .ok (none, s1) =>
      -- Fall back to the non-moving space (`fall_back_to_non_moving` is
      -- assigned twice in the source).
      match s1.nonMovingAllocQueue.head?.getD none with
      | none => .error "CHECK(to_ref != nullptr) Fall-back non-moving space allocation failed"
      | some (addr, nmBytes) =>
        if ¬ s1.hasContinuousBitmap addr then .error "CHECK(mark_bitmap != nullptr)"
        else if addr ∈ s1.contBitmap then
          .error "CHECK(!mark_bitmap->AtomicTestAndSet(to_ref))"
        else
          .ok (addr, nmBytes, true,
            { s1 with nonMovingAllocQueue := s1.nonMovingAllocQueue.tail,
                      contBitmap := addr :: s1.contBitmap })

/-- Events of one `Copy` call, used to state temporal properties of the
forwarding loop. -/
inductive CopyEvent where
  | memcpyEv (toA fromA : Nat)
  | fillDummyEv (addr size : Nat)
  | freeLargeEv (addr size : Nat)
  | skippedInsertEv (size addr : Nat)
  | nonMovingFreeEv (addr : Nat)
  | setGrayEv (addr : Nat)
  | casSuccessEv (fromA toA : Nat)
  | pushEv (addr : Nat)
deriving DecidableEq, Repr

/-- Effect of `memcpy(to_ref, from_ref, obj_size)`
(`concurrent_copying.cc:2007`): the copy receives the from-space object's
lock word and read-barrier state along with its contents. -/
def memcpyStep (s : MarkState) (fromRef toRef : Nat) : MarkState :=
  { s with
    lockWord := fun a => if a = toRef then s.lockWord fromRef else s.lockWord a,
    rb := fun a => if a = toRef then s.rb fromRef else s.rb a }

/-- Recycling of a lost copy (`concurrent_copying.cc:2017-2040`): free a
large region-space block, record an ordinary block in the skipped-blocks map
and counters, or clear the bitmap bit and free the non-moving chunk on the
fallback path. -/
def recycleLostCopy (s0 : MarkState) (toRef bytesAllocated : Nat) (fallback : Bool) :
    Except String (MarkState × List CopyEvent) :=
  if ¬ fallback then
    if s0.regionType toRef ≠ .toSpace then
      .error "DCHECK(region_space_->IsInToSpace(to_ref))"
    else if bytesAllocated > kRegionSize then
      -- Free the large alloc.
      .ok (s0, [.freeLargeEv toRef bytesAllocated])
    else
      -- Record the lost copy for later reuse.
      .ok ({ s0 with
          numBytesAllocated := s0.numBytesAllocated + bytesAllocated,
          toSpaceBytesSkipped := s0.toSpaceBytesSkipped + bytesAllocated,
          toSpaceObjectsSkipped := s0.toSpaceObjectsSkipped + 1,
          skippedBlocksMap := insertSkipped (bytesAllocated, toRef) s0.skippedBlocksMap },
        [.skippedInsertEv bytesAllocated toRef])
  else
    if ¬ s0.nonMovingHasAddress toRef then
      .error "DCHECK(heap_->non_moving_space_->HasAddress(to_ref))"
    else if ¬ s0.hasContinuousBitmap toRef then
      .error "CHECK(mark_bitmap != nullptr)"
    else if toRef ∉ s0.contBitmap then .error "CHECK(mark_bitmap->Clear(to_ref))"
    else
      .ok ({ s0 with contBitmap := s0.contBitmap.erase toRef }, [.nonMovingFreeEv toRef])

/-- The CHECKs on the winner's forwarding pointer after a lost race
(`concurrent_copying.cc:2043-2048`). -/
def lostRaceChecks (s1 : MarkState) (toRef w : Nat) : Except String Unit :=
  if w = toRef then .error "CHECK_NE(to_ref, lost_fwd_ptr)"
  else if ¬ (s1.regionType w = .toSpace ∨ s1.nonMovingHasAddress w = true) then
    .error "CHECK(IsInToSpace(to_ref) || HasAddress(to_ref))"
  else
    match s1.lockWord w with
    | .fwd _ => .error "CHECK_NE(to_ref lock state, kForwardingAddress)"
    | .word _ => .ok ()

/-- The DCHECKs after a successful forwarding CAS
(`concurrent_copying.cc:2065-2075`). -/
def installChecks (s3 : MarkState) (toRef : Nat) (fallback : Bool) : Except String Unit :=
  if ¬ fallback ∧ s3.regionType toRef ≠ .toSpace then
    .error "DCHECK(region_space_->IsInToSpace(to_ref))"
  else if fallback ∧ ¬ s3.nonMovingHasAddress toRef then
    .error "DCHECK(heap_->non_moving_space_->HasAddress(to_ref))"
  else if s3.useBaker ∧ s3.rb toRef ≠ .gray then
    .error "DCHECK(to_ref->GetReadBarrierPointer() == GrayPtr)"
  else
    match s3.lockWord toRef with
    | .fwd _ => .error "CHECK_NE(to_ref lock state, kForwardingAddress)"
    | .word _ => .ok ()

/-- The whole lost-race path of one `Copy` loop iteration
(`concurrent_copying.cc:2011-2049`): fill the abandoned block with a dummy
object, recycle it, run the checks on the winner's pointer `w`. -/
def lostStep (s0 : MarkState) (toRef bytesAllocated : Nat) (fallback : Bool) (w : Nat) :
    Except String (MarkState × List CopyEvent) :=
  match fillWithDummyObject bytesAllocated with
  | .error e => .error e
  | .ok _ =>
    match recycleLostCopy s0 toRef bytesAllocated fallback with
    | .error e => .error e
    | .ok (s1, evr) =>
      match lostRaceChecks s1 toRef w with
      | .error e => .error e
      | .ok _ => .ok (s1, CopyEvent.fillDummyEv toRef bytesAllocated :: evr)

/-- Set the to-space copy's read-barrier state to gray before the CAS
(`concurrent_copying.cc:2052-2055`, Baker only). -/
def grayTo (s0 : MarkState) (toRef : Nat) : MarkState :=
  if s0.useBaker then { s0 with rb := fun a => if a = toRef then .gray else s0.rb a }
  else s0

/-- Apply the scheduled concurrent lock-word write of another thread (between
this iteration's memcpy and its CAS) to the from-space object. -/
def applyInterf (s1 : MarkState) (fromRef : Nat) (interf : Option LockWord) : MarkState :=
  match interf with
  | none => s1
  | some lw => { s1 with lockWord := fun a => if a = fromRef then lw else s1.lockWord a }

/-- Install the forwarding pointer and bump the moved counters on CAS success
(`concurrent_copying.cc:2057-2064`). -/
def installFwd (s2 : MarkState) (fromRef toRef allocSize : Nat) : MarkState :=
  { s2 with
    lockWord := fun a => if a = fromRef then .fwd toRef else s2.lockWord a,
    objectsMoved := s2.objectsMoved + 1,
    bytesMoved := s2.bytesMoved + allocSize }

/-- Outcome of one gray-then-CAS attempt: the CAS either succeeded (install
done, counters bumped, copy pushed) or failed (retry with the state left by
the interfering write). -/
inductive CasOutcome where
  | success (s' : MarkState) (evs : List CopyEvent)
  | failure (s' : MarkState) (evs : List CopyEvent)

/-- One gray-then-CAS attempt of the `Copy` loop
(`concurrent_copying.cc:2052-2081`): gray the copy, then CAS the from-space
object's lock word from `old` to the forwarding address; the weak CAS
succeeds exactly when the lock word still equals `old` at the CAS point and
the iteration is not scheduled as a spurious failure. -/
def casStep (s0 : MarkState) (old : LockWord) (fromRef toRef allocSize : Nat)
    (fallback : Bool) (interf : Option LockWord) (spurious : Bool) :
    Except String CasOutcome :=
  if (applyInterf (grayTo s0 toRef) fromRef interf).lockWord fromRef = old ∧ spurious = false then
    match installChecks
        (installFwd (applyInterf (grayTo s0 toRef) fromRef interf) fromRef toRef allocSize)
        toRef fallback with
    | .error e => .error e
    | .ok _ =>
      .ok (.success
        (pushMarkStack
          (installFwd (applyInterf (grayTo s0 toRef) fromRef interf) fromRef toRef allocSize)
          toRef)
        ((if s0.useBaker then [CopyEvent.setGrayEv toRef] else []) ++
          [CopyEvent.casSuccessEv fromRef toRef, CopyEvent.pushEv toRef]))
  else
    .ok (.failure (applyInterf (grayTo s0 toRef) fromRef interf)
      (if s0.useBaker then [CopyEvent.setGrayEv toRef] else []))

/-- Embedding of the forwarding-pointer install loop of
`ConcurrentCopying::Copy` (`concurrent_copying.cc:2005-2082`).  Each
iteration: memcpy the object (including its lock word and read-barrier
state) into `toRef`, read the copied lock word; on a forwarding address the
race was lost (fill the block with a dummy object, recycle it, return the
winner's pointer); otherwise gray `toRef` (Baker) before the lock-word CAS,
which runs against any concurrent write from the iteration's schedule entry.
The remaining schedule is stored back so nested copies continue from it. -/
def copyLoop (fromRef toRef allocSize bytesAllocated : Nat) (fallback : Bool) :
    List (Option LockWord × Bool) → MarkState → List CopyEvent →
    Except String (Nat × MarkState × List CopyEvent)
  | [], _, _ => .error "copy forwarding loop: schedule exhausted"
  | (interf, spurious) :: rest, s, ev =>
    match s.lockWord fromRef with
    | .fwd w =>
      -- Lost the race: another thread installed the forwarding pointer first.
      match lostStep (memcpyStep s fromRef toRef) toRef bytesAllocated fallback w with
      | .error e => .error e
      | .ok (s1, evl) =>
        .ok (w, { s1 with copySched := rest },
          ev ++ [CopyEvent.memcpyEv toRef fromRef] ++ evl)
    | .word _ =>
      match casStep (memcpyStep s fromRef toRef) (s.lockWord fromRef) fromRef toRef
          allocSize fallback interf spurious with
      | .error e => .error e
      | .ok (.success sWin evs) =>
        .ok (toRef, { sWin with copySched := rest },
          ev ++ [CopyEvent.memcpyEv toRef fromRef] ++ evs)
      | .ok (.failure s2 evs) =>
        copyLoop fromRef toRef allocSize bytesAllocated fallback rest s2
          (ev ++ [CopyEvent.memcpyEv toRef fromRef] ++ evs)

/-- Embedding of `ConcurrentCopying::Copy` (`concurrent_copying.cc:1953-2083`):
size the from-space object, run the allocation cascade, then the forwarding
loop.  Returns the to-space reference, the new state, and the event trace of
the forwarding loop. -/
def copy (s : MarkState) (fromRef : Nat) :
    Except String (Nat × MarkState × List CopyEvent) :=
  if s.regionType fromRef ≠ .fromSpace then
    .error "DCHECK(region_space_->IsInFromSpace(from_ref))"
  else
    match copyAllocate s (roundUp (s.sizeOf fromRef) kAlignment) with
    | .error e => .error e
    | .ok (toRef, bytesAllocated, fallback, s1) =>
      copyLoop fromRef toRef (roundUp (s.sizeOf fromRef) kAlignment) bytesAllocated fallback
        s1.copySched s1 []

/-- Linearization of `n` racing `Copy` calls on the same from-space object:
the atomic lock-word accesses of racing calls are totally ordered, so the
race is modelled as the sequential composition of the calls on the shared
state. -/
def raceCopy (fromRef : Nat) : Nat → MarkState → Except String (List Nat × MarkState)
  | 0, s => .ok ([], s)
  | n + 1, s =>
    match copy s fromRef with
    | .error e => .error e
    | .ok (r, s1, _) =>
      match raceCopy fromRef n s1 with
      | .error e => .error e
      | .ok (rs, s2) => .ok (r :: rs, s2)

/-- Test of the non-moving mark bitmap covering `ref`: the continuous-space
mark bitmap when one covers the address (`!is_los`), otherwise the
large-object bitmap. -/
def nmBitmapTest (s : MarkState) (ref : Nat) : Bool :=
  if s.hasContinuousBitmap ref then decide (ref ∈ s.contBitmap)
  else decide (ref ∈ s.losBitmap)

/-- Set the bit of `ref` in the non-moving mark bitmap covering it. -/
def nmBitmapSet (s : MarkState) (ref : Nat) : MarkState :=
  if s.hasContinuousBitmap ref then { s with contBitmap := ref :: s.contBitmap }
  else { s with losBitmap := ref :: s.losBitmap }

/-- Set the read-barrier state of `ref` to gray unconditionally. -/
def grayObj (s : MarkState) (ref : Nat) : MarkState :=
  { s with rb := fun a => if a = ref then .gray else s.rb a }

/-- Embedding of `ConcurrentCopying::MarkNonMoving`
(`concurrent_copying.cc:2144-2219`): mark a non-moving, non-immune object in
the continuous-space or large-object bitmap (`is_los` dispatch folded into
`nmBitmapTest`/`nmBitmapSet`); objects on the allocation stack are
considered marked and kept white; otherwise the read-barrier CAS
white-to-gray runs (its success is exactly `useBaker ∧ rb = white`),
then the bitmap AtomicTestAndSet: an already-set bit with a successful gray
CAS goes to the false-gray stack, a newly set bit is pushed onto the mark
stack under the gray DCHECK. -/
def markNonMoving (s : MarkState) (ref : Nat) : Except String (Nat × MarkState) :=
  if s.regionType ref ≠ .nonRegion then .error "DCHECK(!region_space_->HasAddress(ref))"
  else if s.immune ref then .error "DCHECK(!immune_spaces_.ContainsObject(ref))"
  else if nmBitmapTest s ref then
    -- Already marked (the gray-or-white DCHECK holds in the two-color model).
    .ok (ref, s)
  else if isOnAllocStack s ref then
    -- Considered marked; keep it white.
    if s.useBaker ∧ s.rb ref ≠ .white then
      .error "DCHECK_EQ(ref->GetReadBarrierPointer(), WhitePtr)"
    else .ok (ref, s)
  -- Test the bitmap again first to reduce the chance of false gray cases.
  else if s.useBaker ∧ nmBitmapTest s ref then .ok (ref, s)
  else if s.useBaker ∧ s.rb ref = .white then
    -- The white-to-gray read-barrier CAS succeeded.
    if nmBitmapTest s ref then
      -- AtomicTestAndSet found the bit already set: false-gray case.
      .ok (ref, { (grayObj s ref) with
        falseGrayStack := (grayObj s ref).falseGrayStack ++ [ref] })
    else
      -- Newly marked; DCHECK gray holds after the successful CAS.
      .ok (ref, pushMarkStack (nmBitmapSet (grayObj s ref) ref) ref)
  else if s.useBaker then
    -- The CAS failed (the object was not white, hence gray).
    if nmBitmapTest s ref then .ok (ref, s)
    else if s.rb ref = .gray then .ok (ref, pushMarkStack (nmBitmapSet s ref) ref)
    else .error "DCHECK_EQ(ref->GetReadBarrierPointer(), GrayPtr)"
  else
    -- Non-Baker mode: just the bitmap AtomicTestAndSet.
    if nmBitmapTest s ref then .ok (ref, s)
    else .ok (ref, pushMarkStack (nmBitmapSet s ref) ref)

/-- Modelled from the spec: the `Mark(ref)` dispatcher of §4.E
(`concurrent_copying-inl.h` is not in `src/`): classify `ref` by region
role; return to-space references verbatim; mark unevac-from-space objects in
the region bitmap (graying and pushing newly marked ones); follow or install
a forwarding pointer for from-space references (via the `Copy` embedding from
the source); mark immune objects in their bitmap; hand other references to
the `MarkNonMoving` embedding from the source. -/
def mark (s : MarkState) (ref : Option Nat) : Except String (Option Nat × MarkState) :=
  match ref with
  | none => .ok (none, s)
  | some x =>
    match s.regionType x with
    | .toSpace => .ok (some x, s)
    | .fromSpace =>
      match getFwdPtr s x with
      | some w => .ok (some w, s)
      | none =>
        match copy s x with
        | .error e => .error e
        | .ok (t, s1, _) => .ok (some t, s1)
    | .unevacFromSpace =>
      if x ∈ s.regionBitmap then .ok (some x, s)
      else
        .ok (some x, pushMarkStack (grayTo { s with regionBitmap := x :: s.regionBitmap } x) x)
    | .nonRegion =>
      if s.immune x then
        if x ∈ s.contBitmap then .ok (some x, s)
        else
          .ok (some x, pushMarkStack (grayTo { s with contBitmap := x :: s.contBitmap } x) x)
      else
        match markNonMoving s x with
        | .error e => .error e
        | .ok (r, s1) => .ok (some r, s1)

/-- Store a value into a reference field of an object. -/
def setFieldVal (s : MarkState) (obj idx : Nat) (v : Option Nat) : MarkState :=
  { s with fields := fun a => if a = obj then (s.fields a).set idx v else s.fields a }

/-- Embedding of `ConcurrentCopying::Process` (`concurrent_copying.cc:1752-1771`)
for the field at index `idx`: read the field without a read barrier, `Mark`
it, and install the forwarded value through the retry loop.  In this
GC-thread-sequential embedding no mutator rewrites the slot, so the loop runs
on the benign one-entry schedule. -/
def processField (s : MarkState) (obj idx : Nat) : Except String MarkState :=
  match mark s ((s.fields obj).getD idx none) with
  | .error e => .error e
  | .ok (toRef, s1) =>
    match processFieldUpdate ((s.fields obj).getD idx none) toRef
        [⟨(s.fields obj).getD idx none, (s.fields obj).getD idx none, false⟩] with
    | none => .ok s1
    | some writes =>
      .ok (writes.foldl (fun st wr => setFieldVal st obj idx wr.2) s1)

/-- Iterate `Process` over the field indices of an object. -/
def scanFields (obj : Nat) : List Nat → MarkState → Except String MarkState
  | [], s => .ok s
  | i :: rest, s =>
    match processField s obj i with
    | .error e => .error e
    | .ok s1 => scanFields obj rest s1

/-- Embedding of `ConcurrentCopying::Scan` (`concurrent_copying.cc:1735-1749`):
visit every reference field of `toRef` through `Process`.  For a
`Reference`-class object `VisitReferences` routes the referent to
`DelayReferenceReferent` (the external reference processor), so the referent
field is not forwarded here; the debug-only read-barrier-disallow counter is
elided. -/
def scan (s : MarkState) (toRef : Nat) : Except String MarkState :=
  if s.regionType toRef = .fromSpace then
    .error "DCHECK(!region_space_->IsInFromSpace(to_ref))"
  else if ¬ s.isGcThread then .error "DCHECK_EQ(Thread::Current(), thread_running_gc_)"
  else scanFields toRef (List.range (s.fields toRef).length) s

/-- The condition under which `ProcessMarkStackRef` leaves a popped reference
gray (`concurrent_copying.cc:1305-1307`): the object is of a
`Reference`-class type and its referent is non-null and not in to-space. -/
def referentNotInToSpace (s : MarkState) (toRef : Nat) : Bool :=
  s.isReferenceClass toRef &&
    (match s.referent toRef with
     | some rr => ! isInToSpace s rr
     | none => false)

/-- The gray-to-white step of `ProcessMarkStackRef`
(`concurrent_copying.cc:1304-1325`) in Baker mode: keep the object gray when
`referentNotInToSpace` (checking the pending-next DCHECK), otherwise CAS it
gray-to-white. -/
def colorStep (s1 : MarkState) (toRef : Nat) : Except String MarkState :=
  if s1.useBaker then
    if referentNotInToSpace s1 toRef then
      -- Leave this reference gray so that GetReferent() will trigger a read
      -- barrier.
      if s1.pendingNext toRef = none then
        .error "DCHECK(to_ref->AsReference()->GetPendingNext() != nullptr)"
      else .ok s1
    else
      if s1.rb toRef = .gray then
        .ok { s1 with rb := fun a => if a = toRef then .white else s1.rb a }
      else .error "DCHECK(success) AtomicSetReadBarrierPointer(Gray, White)"
  else .ok s1

/-- The unevac-from-space live-byte accounting of `ProcessMarkStackRef`
(`concurrent_copying.cc:1327-1335`). -/
def accountUnevacLiveBytes (s2 : MarkState) (toRef : Nat) : Except String MarkState :=
  if s2.regionType toRef = .unevacFromSpace then
    if toRef ∉ s2.regionBitmap then
      .error "DCHECK(region_space_bitmap_->Test(to_ref))"
    else .ok { s2 with liveBytes := s2.liveBytes + roundUp (s2.sizeOf toRef) kAlignment }
  else .ok s2

/-- The optional to-space-invariant re-assertion of `ProcessMarkStackRef`
(`concurrent_copying.cc:1336-1339`). -/
def maybeAssertObject (s3 : MarkState) (toRef : Nat) : Except String MarkState :=
  if s3.toSpaceInvariantChecks then
    if assertToSpaceInvariantObject s3 toRef then .ok s3
    else .error "AssertToSpaceInvariantObjectVisitor"
  else .ok s3

/-- Embedding of `ConcurrentCopying::ProcessMarkStackRef`
(`concurrent_copying.cc:1290-1340`): check the popped reference is gray
(Baker), scan its fields, then whiten it unless it is a `Reference` whose
referent is non-null and not yet in to-space (left gray so `GetReferent`
re-enters the barrier); finally account live bytes for unevac-from-space
objects and optionally re-assert the to-space invariant. -/
def processMarkStackRef (s : MarkState) (toRef : Nat) : Except String MarkState :=
  if s.regionType toRef = .fromSpace then
    .error "DCHECK(!region_space_->IsInFromSpace(to_ref))"
  else if s.useBaker ∧ s.rb toRef ≠ .gray then
    .error "DCHECK(to_ref->GetReadBarrierPointer() == GrayPtr) before scan"
  else
    match scan s toRef with
    | .error e => .error e
    | .ok s1 =>
      if s1.useBaker ∧ s1.rb toRef ≠ .gray then
        .error "DCHECK(to_ref->GetReadBarrierPointer() == GrayPtr) after scan"
      else
        match colorStep s1 toRef with
        | .error e => .error e
        | .ok s2 =>
          match accountUnevacLiveBytes s2 toRef with
          | .error e => .error e
          | .ok s3 => maybeAssertObject s3 toRef

/-- The heap metadata that is immutable during a cycle and untouched by the
marking functions: the read-barrier style, the region roles, sizes, space
membership, class information and the allocation stack. -/
def SameMeta (s s' : MarkState) : Prop :=
  s'.useBaker = s.useBaker ∧ s'.regionType = s.regionType ∧ s'.sizeOf = s.sizeOf ∧
  s'.immune = s.immune ∧ s'.nonMovingHasAddress = s.nonMovingHasAddress ∧
  s'.hasContinuousBitmap = s.hasContinuousBitmap ∧
  s'.isReferenceClass = s.isReferenceClass ∧ s'.referent = s.referent ∧
  s'.pendingNext = s.pendingNext ∧ s'.allocStack = s.allocStack

/-- The mark-stack modes (`MarkStackMode` in the header): thread-local,
shared, GC-exclusive, or off. -/
inductive MarkStackMode where
  | threadLocal
  | shared
  | gcExclusive
  | off
deriving DecidableEq, Repr

/-- State observed by the mark-stack drain: the current mode, the GC mark
stack (`Begin` at the head, `PushBack`/`PopBack` at the tail), and the
revoked thread-local stacks.  The per-reference processing
(`ProcessMarkStackRef`) is a parameter of the drain functions, so the drain's
control flow and counting are stated for any processing effect. -/
structure PipelineState where
  mode : MarkStackMode
  gcMarkStack : List Nat
  revokedStacks : List (List Nat)
deriving DecidableEq, Repr

/-- Process a list of references in order, threading the state and counting
each processed reference. -/
def processRefsSeq (procRef : PipelineState → Nat → PipelineState) :
    List Nat → PipelineState → Nat → PipelineState × Nat
  | [], s, count => (s, count)
  | r :: rest, s, count => processRefsSeq procRef rest (procRef s r) (count + 1)

/-- Embedding of `ConcurrentCopying::ProcessThreadLocalMarkStacks`
(`concurrent_copying.cc:1258-1288`): the revoke checkpoint has already moved
the thread-local stacks into `revokedStacks`; take them, clear the list, and
process every entry of every revoked stack (the stack-pooling bookkeeping is
elided). -/
def processThreadLocalMarkStacks (procRef : PipelineState → Nat → PipelineState)
    (s : PipelineState) : PipelineState × Nat :=
  let revoked := s.revokedStacks
  let s1 := { s with revokedStacks := ([] : List (List Nat)) }
  revoked.foldl (fun acc stk => processRefsSeq procRef stk acc.1 acc.2) (s1, 0)

/-- The `while (!gc_mark_stack_->IsEmpty()) { ProcessMarkStackRef(PopBack()) }`
drain used in the thread-local and GC-exclusive branches of
`ProcessMarkStackOnce`.  `fuel` bounds the iterations; `none` means the fuel
ran out with the stack still non-empty. -/
def drainGcStack (procRef : PipelineState → Nat → PipelineState) :
    Nat → PipelineState → Nat → Option (PipelineState × Nat)
  | 0, s, count => if s.gcMarkStack.isEmpty then some (s, count) else none
  | fuel + 1, s, count =>
    match s.gcMarkStack.getLast? with
    | none => some (s, count)
    | some r =>
      let s1 := { s with gcMarkStack := s.gcMarkStack.dropLast }
      drainGcStack procRef fuel (procRef s1 r) (count + 1)

/-- The batched drain of the shared branch of `ProcessMarkStackOnce`
(`concurrent_copying.cc:1219-1237`): under the lock, break if the stack is
empty, otherwise copy out all entries and reset the stack, then process the
copied references; repeat. -/
def drainShared (procRef : PipelineState → Nat → PipelineState) :
    Nat → PipelineState → Nat → Option (PipelineState × Nat)
  | 0, s, count => if s.gcMarkStack.isEmpty then some (s, count) else none
  | fuel + 1, s, count =>
    if s.gcMarkStack.isEmpty then some (s, count)
    else
      let refs := s.gcMarkStack
      let s1 := { s with gcMarkStack := ([] : List Nat) }
      let sc := processRefsSeq procRef refs s1 count
      drainShared procRef fuel sc.1 sc.2

/-- Embedding of `ConcurrentCopying::ProcessMarkStackOnce`
(`concurrent_copying.cc:1197-1256`): drain the stacks of the current mode,
counting processed references, and report `count == 0`.  `none` covers fuel
exhaustion and the fatal CHECKs (non-empty revoked stacks outside
thread-local mode; a mode that is `off`). -/
def processMarkStackOnce (procRef : PipelineState → Nat → PipelineState)
    (fuel : Nat) (s : PipelineState) : Option (PipelineState × Nat × Bool) :=
  match s.mode with
  | .threadLocal =>
    (drainGcStack procRef fuel (processThreadLocalMarkStacks procRef s).1
        (processThreadLocalMarkStacks procRef s).2).map (fun r => (r.1, r.2, r.2 == 0))
  | .shared =>
    if s.revokedStacks ≠ [] then none
    else (drainShared procRef fuel s 0).map (fun r => (r.1, r.2, r.2 == 0))
  | .gcExclusive =>
    if s.revokedStacks ≠ [] then none
    else (drainGcStack procRef fuel s 0).map (fun r => (r.1, r.2, r.2 == 0))
  | .off => none

/-- Concurrent interference before one `ProcessMarkStackOnce` call: stacks
newly revoked from mutators, and mutator pushes onto the shared stack. -/
structure OnceInput where
  newRevoked : List (List Nat)
  concurrentPushes : List Nat
deriving DecidableEq, Repr

/-- Apply one iteration's concurrent interference to the pipeline state. -/
def applyInput (s : PipelineState) (inp : OnceInput) : PipelineState :=
  { s with revokedStacks := s.revokedStacks ++ inp.newRevoked,
           gcMarkStack := s.gcMarkStack ++ inp.concurrentPushes }

/-- The loop body of `ConcurrentCopying::ProcessMarkStack`
(`concurrent_copying.cc:1186-1194`), unrolled along the per-iteration
interference schedule: run `ProcessMarkStackOnce`, break when it reported an
empty stack on two successive iterations.  Returns the final state and the
trace of per-iteration processed-reference counts; `none` means the schedule
or fuel ran out before the loop broke. -/
def processMarkStackLoop (procRef : PipelineState → Nat → PipelineState) (fuel : Nat) :
    List OnceInput → Bool → PipelineState → Option (PipelineState × List Nat)
  | [], _, _ => none
  | inp :: rest, emptyPrev, s =>
    match processMarkStackOnce procRef fuel (applyInput s inp) with
    | none => none
    | some (s1, c, empty) =>
      if emptyPrev = true ∧ empty = true then some (s1, [c])
      else
        match processMarkStackLoop procRef fuel rest empty s1 with
        | none => none
        | some (s2, cs) => some (s2, c :: cs)

/-- Embedding of `ConcurrentCopying::ProcessMarkStack`
(`concurrent_copying.cc:1182-1195`): the drain loop started with
`empty_prev = false`. -/
def processMarkStack (procRef : PipelineState → Nat → PipelineState) (fuel : Nat)
    (inputs : List OnceInput) (s : PipelineState) : Option (PipelineState × List Nat) :=
  processMarkStackLoop procRef fuel inputs false s

/-- A per-iteration count trace is a break trace for the two-successive-empty
loop entered with previous-empty flag `b`: the loop, fed exactly these
counts, breaks exactly at the end of the trace. -/
def loopBreakTraceB : Bool → List Nat → Bool
  | _, [] => false
  | b, c :: cs =>
    if b = true ∧ c = 0 then decide (cs = []) else loopBreakTraceB (decide (c = 0)) cs

/-- A forwarding target is sane: it lies in to-space, or in the non-moving
space with its mark-bitmap bit set (`Copy` marks the fallback copy's bitmap
bit before installing the forwarding pointer). -/
def fwdTargetOk (s : MarkState) (w : Nat) : Prop :=
  s.regionType w = .toSpace ∨
    (s.nonMovingHasAddress w = true ∧ s.hasContinuousBitmap w = true ∧ w ∈ s.contBitmap)

/-- Well-formedness of a collector state: installed forwarding pointers and
any forwarding pointers concurrently written by the schedule point at sane
targets (the spec's forwarding invariant, §3), and non-moving-space addresses
are outside the region space and not immune. -/
def WFState (s : MarkState) : Prop :=
  (∀ a w, s.lockWord a = .fwd w → fwdTargetOk s w) ∧
  (∀ p ∈ s.copySched, ∀ w, p.1 = some (LockWord.fwd w) → fwdTargetOk s w) ∧
  (∀ w, s.nonMovingHasAddress w = true → s.regionType w = .nonRegion ∧ s.immune w = false)

/-! ## Theorems -/

/-- C9: for every (nonempty, object-aligned) block whose byte size is smaller
than the int-array data offset, `FillWithDummyObject` succeeds by installing
the root object class (`java.lang.Object`) header instead of the int-array
header; in particular it succeeds when the block size equals the instance
size of `java.lang.Object`. -/
theorem fill_small_block_uses_root_class (byteSize : Nat)
    (halign : byteSize % kObjectAlignment = 0) (hpos : 0 < byteSize)
    (hsmall : byteSize < intArrayDataOffset) :
    fillWithDummyObject byteSize = .ok .javaLangObject ∧
    fillWithDummyObject objectInstanceSize = .ok .javaLangObject := by
  have h8 : byteSize = 8 := by
    simp only [kObjectAlignment] at halign
    simp only [intArrayDataOffset] at hsmall
    omega
  subst h8
  exact ⟨rfl, rfl⟩

/-- Witness for C9 at block size 8 (the instance size of `java.lang.Object`). -/
theorem fill_small_block_uses_root_class_witness :
    8 % kObjectAlignment = 0 ∧ 0 < 8 ∧ 8 < intArrayDataOffset ∧
    fillWithDummyObject 8 = .ok .javaLangObject :=
  ⟨by decide, by decide, by decide,
    (fill_small_block_uses_root_class 8 (by decide) (by decide) (by decide)).1⟩

/-- C7: when the RecordFree block of the reclaim phase completes (none of its
CHECKs aborts), the moved counters are bounded by the from-space allocation
counters, the freed object/byte pair handed to `RecordFree` is exactly
`from - to`, and under the from-space accounting check the moved counters are
also bounded by the counts captured at the flip pause. -/
theorem reclaim_record_free_accounting (ck : Bool) (c : ReclaimCounters) (fo fb : Int)
    (hok : reclaimRecordFree ck c = .ok (fo, fb)) :
    c.objectsMoved ≤ c.fromObjects ∧ c.bytesMoved ≤ c.fromBytes ∧
    fo = (c.fromObjects : Int) - (c.objectsMoved : Int) ∧
    fb = (c.fromBytes : Int) - (c.bytesMoved : Int) ∧
    (ck = true → c.objectsMoved ≤ c.pauseNumObjects ∧ c.bytesMoved ≤ c.pauseNumBytes) := by
  unfold reclaimRecordFree at hok
  split_ifs at hok with h1 h2 h3 h4
  simp only [Except.ok.injEq, Prod.mk.injEq] at hok
  obtain ⟨hfo, hfb⟩ := hok
  refine ⟨by omega, by omega, by omega, by omega, ?_⟩
  intro hck
  constructor
  · by_cases hp : c.pauseNumObjects = c.fromObjects + c.unevacFromObjects
    · omega
    · exact absurd ⟨hck, hp⟩ h1
  · by_cases hp : c.pauseNumBytes = c.fromBytes + c.unevacFromBytes
    · omega
    · exact absurd ⟨hck, hp⟩ h2

/-- Witness for C7. -/
theorem reclaim_record_free_accounting_witness :
    reclaimRecordFree true ⟨100, 10, 40, 4, 60, 6, 14, 140⟩ = .ok (4, 40) ∧
    (6 ≤ 10 ∧ 60 ≤ 100 ∧ (4 : Int) = (10 : Int) - (6 : Int) ∧
      (40 : Int) = (100 : Int) - (60 : Int) ∧
      (true = true → 6 ≤ 14 ∧ 60 ≤ 140)) :=
  ⟨rfl, reclaim_record_free_accounting true ⟨100, 10, 40, 4, 60, 6, 14, 140⟩ 4 40 rfl⟩

/-- C10: every write the collector's forwarding-update retry loop performs on
a contended slot replaces exactly the originally read reference by the
forwarded reference and there is at most one such write; if the mutator's
concurrently stored value occupies the slot at every CAS point, no write is
performed; and the wrappers of `Process`, `VisitRoots` and `MarkRoot` skip
the slot entirely when `Mark` returned the reference unchanged. -/
theorem collector_update_never_overwrites_mutator_write :
    (∀ (e n : Option Nat) (sched : List SlotStep) (w : List (Option Nat × Option Nat)),
      fieldUpdateLoop e n sched = some w →
        (∀ pr ∈ w, pr = (e, n)) ∧ w.length ≤ 1 ∧
        ((∀ st ∈ sched, st.casVal ≠ e) → w = [])) ∧
    (∀ (r : Option Nat) (sched : List SlotStep),
      processFieldUpdate r r sched = some [] ∧ visitRootsUpdate r r sched = some []) ∧
    (∀ (r : Nat) (sched : List SlotStep), markRootUpdate r r sched = some []) := by
  refine ⟨?_, ?_, ?_⟩
  · intro e n sched
    induction sched with
    | nil => intro w hw; simp [fieldUpdateLoop] at hw
    | cons step rest ih =>
      intro w hw
      unfold fieldUpdateLoop at hw
      split_ifs at hw with hload hcas
      · -- mutator updated the slot: break, no write
        cases hw
        refine ⟨by simp, by simp, fun _ => rfl⟩
      · -- CAS succeeded: one write, of (e, n)
        cases hw
        refine ⟨?_, by simp, ?_⟩
        · intro pr hpr
          simp only [List.mem_singleton] at hpr
          subst hpr
          rw [hcas.1]
        · intro hall
          exact absurd hcas.1 (hall step (by simp))
      · -- CAS failed: retry
        have hres := ih w hw
        refine ⟨hres.1, hres.2.1, ?_⟩
        intro hall
        exact hres.2.2 (fun st hst => hall st (List.mem_cons_of_mem _ hst))
  · intro r sched
    constructor
    · simp [processFieldUpdate]
    · simp [visitRootsUpdate]
  · intro r sched
    simp [markRootUpdate]

/-- Witness for C10: a slot holding the original reference is updated by a
single write installing the forwarded reference. -/
theorem collector_update_never_overwrites_mutator_write_witness :
    (∀ pr ∈ [((some 1 : Option Nat), (some 2 : Option Nat))], pr = (some 1, some 2)) ∧
    [((some 1 : Option Nat), (some 2 : Option Nat))].length ≤ 1 := by
  have h := collector_update_never_overwrites_mutator_write.1 (some 1) (some 2)
      [⟨some 1, some 1, false⟩] [(some 1, some 2)] rfl
  exact ⟨h.1, h.2.1⟩

/-- Helper: `ProcessMarkStackOnce` reports empty exactly when its processed
count is zero. -/
theorem processMarkStackOnce_empty_iff
    (procRef : PipelineState → Nat → PipelineState) (fuel : Nat)
    (s s1 : PipelineState) (c : Nat) (e : Bool)
    (h : processMarkStackOnce procRef fuel s = some (s1, c, e)) :
    e = true ↔ c = 0 := by
  unfold processMarkStackOnce at h
  split at h
  · rw [Option.map_eq_some'] at h
    obtain ⟨⟨rs, rc⟩, -, heq⟩ := h
    simp only [Prod.mk.injEq] at heq
    rw [← heq.2.2, ← heq.2.1]
    simp
  · split_ifs at h with hrev
    rw [Option.map_eq_some'] at h
    obtain ⟨⟨rs, rc⟩, -, heq⟩ := h
    simp only [Prod.mk.injEq] at heq
    rw [← heq.2.2, ← heq.2.1]
    simp
  · split_ifs at h with hrev
    rw [Option.map_eq_some'] at h
    obtain ⟨⟨rs, rc⟩, -, heq⟩ := h
    simp only [Prod.mk.injEq] at heq
    rw [← heq.2.2, ← heq.2.1]
    simp
  · exact Option.noConfusion h

/-- Helper: every successful run of the `ProcessMarkStack` loop produces a
count trace on which the two-successive-empty loop breaks exactly at the
end. -/
theorem processMarkStackLoop_breakTrace
    (procRef : PipelineState → Nat → PipelineState) (fuel : Nat) :
    ∀ (inputs : List OnceInput) (b : Bool) (s s' : PipelineState) (cs : List Nat),
      processMarkStackLoop procRef fuel inputs b s = some (s', cs) →
      loopBreakTraceB b cs = true := by
  intro inputs
  induction inputs with
  | nil =>
    intro b s s' cs h
    simp [processMarkStackLoop] at h
  | cons inp rest ih =>
    intro b s s' cs h
    unfold processMarkStackLoop at h
    split at h
    · exact Option.noConfusion h
    next s1 c empty hres =>
      have hiff := processMarkStackOnce_empty_iff procRef fuel _ _ _ _ hres
      split_ifs at h with hb
      · simp only [Option.some.injEq, Prod.mk.injEq] at h
        have hc0 : c = 0 := hiff.mp hb.2
        rw [← h.2, hc0]
        simp [loopBreakTraceB, hb.1]
      · split at h
        · exact Option.noConfusion h
        next s2 cs2 hrec =>
          simp only [Option.some.injEq, Prod.mk.injEq] at h
          rw [← h.2]
          have htail := ih empty s1 s2 cs2 hrec
          unfold loopBreakTraceB
          have hnb : ¬ (b = true ∧ c = 0) := by
            intro hcontra
            exact hb ⟨hcontra.1, hiff.mpr hcontra.2⟩
          rw [if_neg hnb]
          have hempb : decide (c = 0) = empty := by
            cases hemp : empty
            · have hcne : ¬ c = 0 := fun hc => by
                have hcontra := hiff.mpr hc
                rw [hemp] at hcontra
                exact Bool.noConfusion hcontra
              simp [hcne]
            · simp [hiff.mp hemp]
          rw [hempb]
          exact htail

/-- Helper: a break trace entered with `empty_prev = false` ends with two
successive zero counts. -/
theorem loopBreakTrace_ends_double_zero :
    ∀ (cs : List Nat) (b : Bool), loopBreakTraceB b cs = true →
      (b = true ∧ cs = [0]) ∨ ∃ front, cs = front ++ [0, 0] := by
  intro cs
  induction cs with
  | nil => intro b h; simp [loopBreakTraceB] at h
  | cons c cs ih =>
    intro b h
    unfold loopBreakTraceB at h
    by_cases hb : b = true ∧ c = 0
    · rw [if_pos hb] at h
      left
      have hnil : cs = [] := of_decide_eq_true h
      rw [hnil, hb.2]
      exact ⟨hb.1, rfl⟩
    · rw [if_neg hb] at h
      rcases ih (decide (c = 0)) h with ⟨hd, hcs⟩ | ⟨front, hcs⟩
      · right
        have hc : c = 0 := of_decide_eq_true hd
        exact ⟨[], by rw [hcs, hc]; rfl⟩
      · right
        exact ⟨c :: front, by rw [hcs, List.cons_append]⟩

/-- C5: whenever `ProcessMarkStack` returns, its per-iteration count trace is
a break trace of the two-successive-empty loop (it ran until, and only
until, the single-drain step reported an empty active stack twice in a row),
so the trace ends with two zero counts; and `ProcessMarkStackOnce` reports
empty exactly when it processed zero references from the stacks of the
current mode. -/
theorem process_mark_stack_two_successive_empties
    (procRef : PipelineState → Nat → PipelineState) (fuel : Nat)
    (inputs : List OnceInput) (s s' : PipelineState) (cs : List Nat)
    (hok : processMarkStack procRef fuel inputs s = some (s', cs)) :
    (∃ front, cs = front ++ [0, 0]) ∧ loopBreakTraceB false cs = true ∧
    (∀ s0 s1 c e, processMarkStackOnce procRef fuel s0 = some (s1, c, e) →
      (e = true ↔ c = 0)) := by
  have htrace := processMarkStackLoop_breakTrace procRef fuel inputs false s s' cs hok
  refine ⟨?_, htrace, ?_⟩
  · rcases loopBreakTrace_ends_double_zero cs false htrace with ⟨hfalse, -⟩ | hend
    · exact Bool.noConfusion hfalse
    · exact hend
  · intro s0 s1 c e h
    exact processMarkStackOnce_empty_iff procRef fuel s0 s1 c e h

/-- Witness for C5: in GC-exclusive mode with an empty stack the loop runs
exactly two iterations, both reporting zero processed references. -/
theorem process_mark_stack_two_successive_empties_witness :
    (∃ front, ([0, 0] : List Nat) = front ++ [0, 0]) ∧
    loopBreakTraceB false [0, 0] = true := by
  have h := process_mark_stack_two_successive_empties (fun st _ => st) 1
      [⟨[], []⟩, ⟨[], []⟩] ⟨.gcExclusive, [], []⟩ ⟨.gcExclusive, [], []⟩ [0, 0] rfl
  exact ⟨h.1, h.2.1⟩

/-- Helper: when the invariant is being asserted, a passed
`AssertToSpaceInvariant` means the reference is not in from-space. -/
theorem assertToSpaceInvariant_not_from_space (s : MarkState) (r : Nat)
    (ha : s.isAsserting = true) (h : assertToSpaceInvariant s r = true) :
    s.regionType r ≠ .fromSpace := by
  intro hfrom
  unfold assertToSpaceInvariant at h
  rw [if_pos ha, hfrom] at h
  exact Bool.noConfusion h

/-- Helper: soundness of the verification sweep's reference visitor. -/
theorem verifyRef_sound (s : MarkState) (r : Nat) (ha : s.isAsserting = true)
    (h : verifyNoFromSpaceRefsRef s (some r) = true) :
    s.regionType r ≠ .fromSpace ∧ (s.useBaker = true → s.rb r = .white) := by
  unfold verifyNoFromSpaceRefsRef at h
  rw [Bool.and_eq_true] at h
  refine ⟨assertToSpaceInvariant_not_from_space s r ha h.1, ?_⟩
  intro hbaker
  have h2 := h.2
  rw [if_pos hbaker] at h2
  exact of_decide_eq_true h2

/-- Helper: soundness of the verification sweep's object visitor. -/
theorem verifyObj_sound (s : MarkState) (o : Nat) (ha : s.isAsserting = true)
    (h : verifyNoFromSpaceRefsObject s o = true) :
    s.regionType o ≠ .fromSpace ∧ (s.useBaker = true → s.rb o = .white) ∧
    (∀ b, some b ∈ objectOutRefs s o → s.regionType b ≠ .fromSpace) := by
  unfold verifyNoFromSpaceRefsObject at h
  rw [Bool.and_eq_true, Bool.and_eq_true] at h
  obtain ⟨⟨hno, hrefs⟩, hwhite⟩ := h
  refine ⟨of_decide_eq_true hno, ?_, ?_⟩
  · intro hbaker
    rw [if_pos hbaker] at hwhite
    exact of_decide_eq_true hwhite
  · intro b hb
    rw [List.all_eq_true] at hrefs
    exact (verifyRef_sound s b ha (hrefs (some b) hb)).1

/-- C1: if the paused `VerifyNoFromSpaceReferences` sweep over every root,
every to-space object, every marked non-moving-space object and every
allocation-stack object passes, then every swept root and object is outside
from-space, every reference field (and referent) of a swept object is outside
from-space, in Baker mode every swept root target and object is white, and —
when those enumerations cover every non-from-space object — no reference
reachable from the roots points into from-space. -/
theorem verify_no_from_space_references_sound (s : MarkState)
    (roots toObjs nmObjs allocObjs : List Nat) (ha : s.isAsserting = true)
    (hok : verifyNoFromSpaceReferences s roots toObjs nmObjs allocObjs = true) :
    (∀ r ∈ roots, s.regionType r ≠ .fromSpace ∧ (s.useBaker = true → s.rb r = .white)) ∧
    (∀ o, o ∈ toObjs ∨ o ∈ nmObjs ∨ o ∈ allocObjs →
      s.regionType o ≠ .fromSpace ∧ (s.useBaker = true → s.rb o = .white) ∧
      (∀ b, some b ∈ objectOutRefs s o → s.regionType b ≠ .fromSpace)) ∧
    ((∀ a, s.regionType a ≠ .fromSpace → a ∈ toObjs ∨ a ∈ nmObjs ∨ a ∈ allocObjs) →
      ∀ x, Reachable s roots x → s.regionType x ≠ .fromSpace) := by
  unfold verifyNoFromSpaceReferences at hok
  rw [Bool.and_eq_true, Bool.and_eq_true, Bool.and_eq_true] at hok
  obtain ⟨⟨⟨hroots, htos⟩, hnms⟩, hallocs⟩ := hok
  rw [List.all_eq_true] at hroots htos hnms hallocs
  have hrootSound : ∀ r ∈ roots,
      s.regionType r ≠ .fromSpace ∧ (s.useBaker = true → s.rb r = .white) :=
    fun r hr => verifyRef_sound s r ha (hroots r hr)
  have hobjSound : ∀ o, o ∈ toObjs ∨ o ∈ nmObjs ∨ o ∈ allocObjs →
      s.regionType o ≠ .fromSpace ∧ (s.useBaker = true → s.rb o = .white) ∧
      (∀ b, some b ∈ objectOutRefs s o → s.regionType b ≠ .fromSpace) := by
    intro o ho
    rcases ho with hto | hnm | hal
    · exact verifyObj_sound s o ha (htos o hto)
    · exact verifyObj_sound s o ha (hnms o hnm)
    · have hpair := hallocs o hal
      rw [Bool.and_eq_true] at hpair
      exact verifyObj_sound s o ha hpair.2
  refine ⟨hrootSound, hobjSound, ?_⟩
  intro hcover x hx
  induction hx with
  | root r hr => exact (hrootSound r hr).1
  | step a b _ hb ih => exact (hobjSound a (hcover a ih)).2.2 b hb

/-- Heap for the C1 witness: object 0 is the only to-space object and the
only root, with a self-referential field; everything else is from-space. -/
def c1State : MarkState where
  useBaker := true
  regionType := fun a => if a = 0 then .toSpace else .fromSpace
  sizeOf := fun _ => 8
  immune := fun _ => false
  nonMovingHasAddress := fun _ => false
  hasContinuousBitmap := fun _ => false
  isReferenceClass := fun _ => false
  referent := fun _ => none
  pendingNext := fun _ => none
  regionBitmap := []
  contBitmap := []
  losBitmap := []
  allocStack := []
  rb := fun _ => .white
  lockWord := fun _ => .word 0
  fields := fun _ => [some 0]
  gcMarkStack := []
  falseGrayStack := []
  objectsMoved := 0
  bytesMoved := 0
  skippedBlocksMap := []
  toSpaceBytesSkipped := 0
  toSpaceObjectsSkipped := 0
  numBytesAllocated := 0
  liveBytes := 0
  regionAllocQueue := []
  nonMovingAllocQueue := []
  copySched := []
  isAsserting := true
  updatedAllImmune := false
  gcGraysImmune := false
  isGcThread := true
  toSpaceInvariantChecks := false

/-- Witness for C1: on the concrete heap `c1State` the sweep passes and every
reference reachable from the root avoids from-space. -/
theorem verify_no_from_space_references_sound_witness :
    c1State.regionType 0 ≠ .fromSpace ∧
    (∀ x, Reachable c1State [0] x → c1State.regionType x ≠ .fromSpace) := by
  have hcover : ∀ a, c1State.regionType a ≠ .fromSpace →
      a ∈ [0] ∨ a ∈ ([] : List Nat) ∨ a ∈ ([] : List Nat) := by
    intro a hne
    by_cases h0 : a = 0
    · subst h0
      exact Or.inl (by simp)
    · exfalso
      apply hne
      simp only [c1State, if_neg h0]
  have h := verify_no_from_space_references_sound c1State [0] [0] [] [] rfl rfl
  exact ⟨(h.1 0 (by simp)).1, h.2.2 hcover⟩

/-- C4: `Copy` attempts allocation in the order region space, skipped-blocks
reuse, non-moving space; when the region space and the skipped-blocks map
both fail, the non-moving fallback is taken and the mark-bitmap bit of the
new copy, previously unset, is set (exactly once); and a non-moving-space
allocation failure is a fatal mandatory check. -/
theorem copy_allocation_order (s : MarkState) (allocSize : Nat) :
    (∀ addr, s.regionAllocQueue.head?.getD none = some addr →
      copyAllocate s allocSize =
        .ok (addr, allocSize, false, { s with regionAllocQueue := s.regionAllocQueue.tail })) ∧
    (∀ addr s1, s.regionAllocQueue.head?.getD none = none →
      allocateInSkippedBlock { s with regionAllocQueue := s.regionAllocQueue.tail } allocSize
        = .ok (some addr, s1) →
      copyAllocate s allocSize = .ok (addr, allocSize, false, s1)) ∧
    (∀ s1 addr nmBytes, s.regionAllocQueue.head?.getD none = none →
      allocateInSkippedBlock { s with regionAllocQueue := s.regionAllocQueue.tail } allocSize
        = .ok (none, s1) →
      s1.nonMovingAllocQueue.head?.getD none = some (addr, nmBytes) →
      s1.hasContinuousBitmap addr = true →
      addr ∉ s1.contBitmap →
      copyAllocate s allocSize =
        .ok (addr, nmBytes, true,
          { s1 with nonMovingAllocQueue := s1.nonMovingAllocQueue.tail,
                    contBitmap := addr :: s1.contBitmap }) ∧
        addr ∉ s1.contBitmap ∧ addr ∈ addr :: s1.contBitmap) ∧
    (∀ s1, s.regionAllocQueue.head?.getD none = none →
      allocateInSkippedBlock { s with regionAllocQueue := s.regionAllocQueue.tail } allocSize
        = .ok (none, s1) →
      s1.nonMovingAllocQueue.head?.getD none = none →
      copyAllocate s allocSize =
        .error "CHECK(to_ref != nullptr) Fall-back non-moving space allocation failed") := by
  refine ⟨?_, ?_, ?_, ?_⟩
  · intro addr h
    simp only [copyAllocate, h]
  · intro addr s1 hregion hskip
    simp only [copyAllocate, hregion, hskip]
  · intro s1 addr nmBytes hregion hskip hnm hbm hnotin
    refine ⟨?_, hnotin, by simp⟩
    simp only [copyAllocate, hregion, hskip, hnm, hbm, hnotin, not_true_eq_false,
      if_false, if_true, ite_false, ite_true]
  · intro s1 hregion hskip hnm
    simp only [copyAllocate, hregion, hskip, hnm]

/-- Heap for the C4 witness: empty region-allocation queue and skipped-blocks
map, one non-moving block of 16 bytes at address 7 available, bitmap
present. -/
def c4State : MarkState :=
  { c1State with nonMovingAllocQueue := [some (7, 16)],
                 hasContinuousBitmap := fun _ => true }

/-- Witness for C4: with region space and skipped blocks exhausted, the
fallback allocates at the non-moving block and sets its previously unset
bitmap bit. -/
theorem copy_allocation_order_witness :
    ∃ s', copyAllocate c4State 8 = .ok (7, 16, true, s') ∧ 7 ∈ s'.contBitmap := by
  have h := (copy_allocation_order c4State 8).2.2.1
      { c4State with regionAllocQueue := c4State.regionAllocQueue.tail } 7 16
      rfl rfl rfl rfl (by decide)
  exact ⟨_, h.1, by simp⟩

/-- Reflexivity of `SameMeta`. -/
theorem sameMeta_refl (s : MarkState) : SameMeta s s :=
  ⟨rfl, rfl, rfl, rfl, rfl, rfl, rfl, rfl, rfl, rfl⟩

/-- Transitivity of `SameMeta`. -/
theorem sameMeta_trans {s1 s2 s3 : MarkState} (h1 : SameMeta s1 s2)
    (h2 : SameMeta s2 s3) : SameMeta s1 s3 := by
  obtain ⟨a1, b1, c1, d1, e1, f1, g1, i1, j1, k1⟩ := h1
  obtain ⟨a2, b2, c2, d2, e2, f2, g2, i2, j2, k2⟩ := h2
  exact ⟨a2.trans a1, b2.trans b1, c2.trans c1, d2.trans d1, e2.trans e1,
    f2.trans f1, g2.trans g1, i2.trans i1, j2.trans j1, k2.trans k1⟩

/-- Helper: `AllocateInSkippedBlock` only touches the skipped-blocks map. -/
theorem allocateInSkippedBlock_sameMeta (s : MarkState) (allocSize : Nat)
    (res : Option Nat) (s' : MarkState)
    (h : allocateInSkippedBlock s allocSize = .ok (res, s')) : SameMeta s s' := by
  unfold allocateInSkippedBlock at h
  split at h
  · exact Except.noConfusion h
  · simp only [Except.ok.injEq, Prod.mk.injEq] at h
    obtain ⟨-, hs⟩ := h
    subst hs
    exact ⟨rfl, rfl, rfl, rfl, rfl, rfl, rfl, rfl, rfl, rfl⟩
  · simp only [Except.ok.injEq, Prod.mk.injEq] at h
    obtain ⟨-, hs⟩ := h
    subst hs
    exact ⟨rfl, rfl, rfl, rfl, rfl, rfl, rfl, rfl, rfl, rfl⟩

/-- Helper: `SameMeta` for both branches of an `if`. -/
theorem sameMeta_ite {s A B : MarkState} (c : Prop) [Decidable c]
    (hA : SameMeta s A) (hB : SameMeta s B) : SameMeta s (if c then A else B) := by
  split
  · exact hA
  · exact hB

/-- Helper: the memcpy step only touches the copy's lock word and
read-barrier state. -/
theorem memcpyStep_sameMeta (s : MarkState) (fromRef toRef : Nat) :
    SameMeta s (memcpyStep s fromRef toRef) :=
  ⟨rfl, rfl, rfl, rfl, rfl, rfl, rfl, rfl, rfl, rfl⟩

/-- Helper: recycling a lost copy only touches counters, the skipped-blocks
map and the mark bitmap. -/
theorem recycleLostCopy_sameMeta (s0 : MarkState) (toRef bytesAllocated : Nat)
    (fallback : Bool) (s1 : MarkState) (evr : List CopyEvent)
    (h : recycleLostCopy s0 toRef bytesAllocated fallback = .ok (s1, evr)) :
    SameMeta s0 s1 := by
  unfold recycleLostCopy at h
  split_ifs at h
  all_goals
    simp only [Except.ok.injEq, Prod.mk.injEq] at h
  all_goals
    obtain ⟨hs, -⟩ := h
  all_goals subst hs
  all_goals exact ⟨rfl, rfl, rfl, rfl, rfl, rfl, rfl, rfl, rfl, rfl⟩

/-- Helper: the gray step only touches the copy's read-barrier state. -/
theorem grayTo_sameMeta (s0 : MarkState) (toRef : Nat) :
    SameMeta s0 (grayTo s0 toRef) := by
  unfold grayTo
  exact sameMeta_ite _ ⟨rfl, rfl, rfl, rfl, rfl, rfl, rfl, rfl, rfl, rfl⟩ (sameMeta_refl s0)

/-- Helper: an interfering lock-word write only touches the lock word. -/
theorem applyInterf_sameMeta (s1 : MarkState) (fromRef : Nat) (interf : Option LockWord) :
    SameMeta s1 (applyInterf s1 fromRef interf) := by
  cases interf
  · exact sameMeta_refl s1
  · exact ⟨rfl, rfl, rfl, rfl, rfl, rfl, rfl, rfl, rfl, rfl⟩

/-- Helper: installing the forwarding pointer only touches the lock word and
the moved counters. -/
theorem installFwd_sameMeta (s2 : MarkState) (fromRef toRef allocSize : Nat) :
    SameMeta s2 (installFwd s2 fromRef toRef allocSize) :=
  ⟨rfl, rfl, rfl, rfl, rfl, rfl, rfl, rfl, rfl, rfl⟩

/-- Helper: the lost-race path never touches the immutable heap metadata. -/
theorem lostStep_sameMeta (s0 : MarkState) (toRef bytesAllocated : Nat) (fallback : Bool)
    (w : Nat) (s1 : MarkState) (evl : List CopyEvent)
    (h : lostStep s0 toRef bytesAllocated fallback w = .ok (s1, evl)) :
    SameMeta s0 s1 := by
  unfold lostStep at h
  split at h
  · exact Except.noConfusion h
  · split at h
    · exact Except.noConfusion h
    next s1' evr hrec =>
      split at h
      · exact Except.noConfusion h
      · simp only [Except.ok.injEq, Prod.mk.injEq] at h
        obtain ⟨hs, -⟩ := h
        subst hs
        exact recycleLostCopy_sameMeta _ _ _ _ _ _ hrec

/-- Helper: a CAS attempt never touches the immutable heap metadata. -/
theorem casStep_sameMeta (s0 : MarkState) (old : LockWord) (fromRef toRef allocSize : Nat)
    (fallback : Bool) (interf : Option LockWord) (spurious : Bool)
    (out : CasOutcome)
    (h : casStep s0 old fromRef toRef allocSize fallback interf spurious = .ok out) :
    (∀ sWin evs, out = .success sWin evs → SameMeta s0 sWin) ∧
    (∀ s2 evs, out = .failure s2 evs → SameMeta s0 s2) := by
  have hbase : SameMeta s0 (applyInterf (grayTo s0 toRef) fromRef interf) :=
    sameMeta_trans (grayTo_sameMeta s0 toRef)
      (applyInterf_sameMeta (grayTo s0 toRef) fromRef interf)
  unfold casStep at h
  split_ifs at h with hc hb
  all_goals try (
    split at h
    · exact Except.noConfusion h
    · simp only [Except.ok.injEq] at h
      subst h
      exact ⟨fun sWin evs heq => by
          cases heq
          exact sameMeta_trans hbase
            (sameMeta_trans (installFwd_sameMeta _ fromRef toRef allocSize)
              ⟨rfl, rfl, rfl, rfl, rfl, rfl, rfl, rfl, rfl, rfl⟩),
        fun s2 evs heq => CasOutcome.noConfusion heq⟩)
  all_goals (
    simp only [Except.ok.injEq] at h
    subst h
    exact ⟨fun sWin evs heq => CasOutcome.noConfusion heq,
      fun s2 evs heq => by cases heq; exact hbase⟩)

/-- Helper: the forwarding loop never touches the immutable heap metadata. -/
theorem copyLoop_sameMeta (fromRef toRef allocSize bytesAllocated : Nat) (fallback : Bool) :
    ∀ (sched : List (Option LockWord × Bool)) (s : MarkState) (ev : List CopyEvent)
      (r : Nat) (s' : MarkState) (ev' : List CopyEvent),
      copyLoop fromRef toRef allocSize bytesAllocated fallback sched s ev = .ok (r, s', ev') →
      SameMeta s s' := by
  intro sched
  induction sched with
  | nil => intro s ev r s' ev' h; exact Except.noConfusion h
  | cons p rest ih =>
    obtain ⟨interf, spurious⟩ := p
    intro s ev r s' ev' h
    unfold copyLoop at h
    split at h
    -- Lost-race path.
    · split at h
      · exact Except.noConfusion h
      next s1 evl hlost =>
        simp only [Except.ok.injEq, Prod.mk.injEq] at h
        obtain ⟨-, hs, -⟩ := h
        subst hs
        exact sameMeta_trans
          (sameMeta_trans (memcpyStep_sameMeta s fromRef toRef)
            (lostStep_sameMeta _ _ _ _ _ _ _ hlost))
          ⟨rfl, rfl, rfl, rfl, rfl, rfl, rfl, rfl, rfl, rfl⟩
    -- CAS path.
    · split at h
      · exact Except.noConfusion h
      -- CAS success.
      next sWin evs hcas =>
        simp only [Except.ok.injEq, Prod.mk.injEq] at h
        obtain ⟨-, hs, -⟩ := h
        subst hs
        have hwin := (casStep_sameMeta _ _ _ _ _ _ _ _ _ hcas).1 sWin evs rfl
        exact sameMeta_trans
          (sameMeta_trans (memcpyStep_sameMeta s fromRef toRef) hwin)
          ⟨rfl, rfl, rfl, rfl, rfl, rfl, rfl, rfl, rfl, rfl⟩
      -- CAS failure: retry on the remaining schedule.
      next s2 evs hcas =>
        have hfail := (casStep_sameMeta _ _ _ _ _ _ _ _ _ hcas).2 s2 evs rfl
        exact sameMeta_trans
          (sameMeta_trans (memcpyStep_sameMeta s fromRef toRef) hfail)
          (ih _ _ _ _ _ h)

/-- Helper: `copyAllocate` never touches the immutable heap metadata. -/
theorem copyAllocate_sameMeta (s : MarkState) (allocSize : Nat)
    (toRef bytesAllocated : Nat) (fallback : Bool) (s' : MarkState)
    (h : copyAllocate s allocSize = .ok (toRef, bytesAllocated, fallback, s')) :
    SameMeta s s' := by
  unfold copyAllocate at h
  split at h
  · simp only [Except.ok.injEq, Prod.mk.injEq] at h
    obtain ⟨-, -, -, hs⟩ := h
    subst hs
    exact ⟨rfl, rfl, rfl, rfl, rfl, rfl, rfl, rfl, rfl, rfl⟩
  · split at h
    · exact Except.noConfusion h
    next addr s1 heq =>
      have hmeta := allocateInSkippedBlock_sameMeta _ _ _ _ heq
      simp only [Except.ok.injEq, Prod.mk.injEq] at h
      obtain ⟨-, -, -, hs⟩ := h
      subst hs
      exact sameMeta_trans ⟨rfl, rfl, rfl, rfl, rfl, rfl, rfl, rfl, rfl, rfl⟩ hmeta
    next s1 heq =>
      have hmeta := allocateInSkippedBlock_sameMeta _ _ _ _ heq
      split at h
      · exact Except.noConfusion h
      · split_ifs at h
        simp only [Except.ok.injEq, Prod.mk.injEq] at h
        obtain ⟨-, -, -, hs⟩ := h
        subst hs
        exact sameMeta_trans ⟨rfl, rfl, rfl, rfl, rfl, rfl, rfl, rfl, rfl, rfl⟩
          (sameMeta_trans hmeta ⟨rfl, rfl, rfl, rfl, rfl, rfl, rfl, rfl, rfl, rfl⟩)

/-- Helper: `Copy` never touches the immutable heap metadata. -/
theorem copy_sameMeta (s : MarkState) (fromRef : Nat) (r : Nat) (s' : MarkState)
    (ev : List CopyEvent) (h : copy s fromRef = .ok (r, s', ev)) : SameMeta s s' := by
  unfold copy at h
  split_ifs at h
  split at h
  · exact Except.noConfusion h
  next toRef bytesAllocated fallback s1 heq =>
    exact sameMeta_trans (copyAllocate_sameMeta _ _ _ _ _ _ heq)
      (copyLoop_sameMeta _ _ _ _ _ _ _ _ _ _ _ h)

/-- Helper: pushing onto the GC mark stack keeps the heap metadata. -/
theorem sameMeta_pushMarkStack (s : MarkState) (t : Nat) : SameMeta s (pushMarkStack s t) :=
  ⟨rfl, rfl, rfl, rfl, rfl, rfl, rfl, rfl, rfl, rfl⟩

/-- Helper: graying an object keeps the heap metadata. -/
theorem sameMeta_grayObj (s : MarkState) (t : Nat) : SameMeta s (grayObj s t) :=
  ⟨rfl, rfl, rfl, rfl, rfl, rfl, rfl, rfl, rfl, rfl⟩

/-- Helper: setting a non-moving bitmap bit keeps the heap metadata. -/
theorem sameMeta_nmBitmapSet (s : MarkState) (t : Nat) : SameMeta s (nmBitmapSet s t) := by
  unfold nmBitmapSet
  exact sameMeta_ite _ ⟨rfl, rfl, rfl, rfl, rfl, rfl, rfl, rfl, rfl, rfl⟩
    ⟨rfl, rfl, rfl, rfl, rfl, rfl, rfl, rfl, rfl, rfl⟩

/-- Helper: `MarkNonMoving` never touches the immutable heap metadata. -/
theorem markNonMoving_sameMeta (s : MarkState) (ref : Nat) (r : Nat) (s' : MarkState)
    (h : markNonMoving s ref = .ok (r, s')) : SameMeta s s' := by
  unfold markNonMoving at h
  split_ifs at h
  all_goals
    simp only [Except.ok.injEq, Prod.mk.injEq] at h
  all_goals obtain ⟨-, hs⟩ := h
  all_goals subst hs
  all_goals first
    | exact sameMeta_refl s
    | exact sameMeta_trans (sameMeta_grayObj s ref)
        ⟨rfl, rfl, rfl, rfl, rfl, rfl, rfl, rfl, rfl, rfl⟩
    | exact sameMeta_trans
        (sameMeta_trans (sameMeta_grayObj s ref) (sameMeta_nmBitmapSet _ ref))
        (sameMeta_pushMarkStack _ ref)
    | exact sameMeta_trans (sameMeta_nmBitmapSet s ref) (sameMeta_pushMarkStack _ ref)

/-- Helper: marking an unevac-from-space object in the region bitmap,
graying it and pushing it keeps the heap metadata. -/
theorem sameMeta_regionBitmapGrayPush (s : MarkState) (x : Nat) :
    SameMeta s (pushMarkStack (grayTo { s with regionBitmap := x :: s.regionBitmap } x) x) := by
  have h1 : SameMeta s { s with regionBitmap := x :: s.regionBitmap } :=
    ⟨rfl, rfl, rfl, rfl, rfl, rfl, rfl, rfl, rfl, rfl⟩
  exact sameMeta_trans (sameMeta_trans h1 (grayTo_sameMeta _ _)) (sameMeta_pushMarkStack _ _)

/-- Helper: marking an immune object in the continuous bitmap, graying it and
pushing it keeps the heap metadata. -/
theorem sameMeta_contBitmapGrayPush (s : MarkState) (x : Nat) :
    SameMeta s (pushMarkStack (grayTo { s with contBitmap := x :: s.contBitmap } x) x) := by
  have h1 : SameMeta s { s with contBitmap := x :: s.contBitmap } :=
    ⟨rfl, rfl, rfl, rfl, rfl, rfl, rfl, rfl, rfl, rfl⟩
  exact sameMeta_trans (sameMeta_trans h1 (grayTo_sameMeta _ _)) (sameMeta_pushMarkStack _ _)

/-- Helper: `Mark` never touches the immutable heap metadata. -/
theorem mark_sameMeta (s : MarkState) (ref : Option Nat) (r : Option Nat) (s' : MarkState)
    (h : mark s ref = .ok (r, s')) : SameMeta s s' := by
  unfold mark at h
  split at h
  · simp only [Except.ok.injEq, Prod.mk.injEq] at h
    obtain ⟨-, hs⟩ := h
    subst hs
    exact sameMeta_refl s
  · split at h
    · simp only [Except.ok.injEq, Prod.mk.injEq] at h
      obtain ⟨-, hs⟩ := h
      subst hs
      exact sameMeta_refl s
    · split at h
      · simp only [Except.ok.injEq, Prod.mk.injEq] at h
        obtain ⟨-, hs⟩ := h
        subst hs
        exact sameMeta_refl s
      · split at h
        · exact Except.noConfusion h
        next t s1 evc heq =>
          simp only [Except.ok.injEq, Prod.mk.injEq] at h
          obtain ⟨-, hs⟩ := h
          subst hs
          exact copy_sameMeta _ _ _ _ _ heq
    · split_ifs at h
      all_goals simp only [Except.ok.injEq, Prod.mk.injEq] at h
      all_goals obtain ⟨-, hs⟩ := h
      all_goals subst hs
      all_goals first
        | exact sameMeta_refl s
        | exact sameMeta_regionBitmapGrayPush s _
    · split_ifs at h
      all_goals try (
        split at h
        · exact Except.noConfusion h
        next rr s1 heq =>
          simp only [Except.ok.injEq, Prod.mk.injEq] at h
          obtain ⟨-, hs⟩ := h
          subst hs
          exact markNonMoving_sameMeta _ _ _ _ heq)
      all_goals simp only [Except.ok.injEq, Prod.mk.injEq] at h
      all_goals obtain ⟨-, hs⟩ := h
      all_goals subst hs
      all_goals first
        | exact sameMeta_refl s
        | exact sameMeta_contBitmapGrayPush s _

/-- Helper: a fold of field stores keeps the heap metadata. -/
theorem sameMeta_setFieldFold (obj idx : Nat) :
    ∀ (writes : List (Option Nat × Option Nat)) (s1 : MarkState),
      SameMeta s1 (writes.foldl (fun st wr => setFieldVal st obj idx wr.2) s1) := by
  intro writes
  induction writes with
  | nil => intro s1; exact sameMeta_refl s1
  | cons w rest ih =>
    intro s1
    have h1 : SameMeta s1 (setFieldVal s1 obj idx w.2) :=
      ⟨rfl, rfl, rfl, rfl, rfl, rfl, rfl, rfl, rfl, rfl⟩
    exact sameMeta_trans h1 (ih _)

/-- Helper: `Process` never touches the immutable heap metadata. -/
theorem processField_sameMeta (s : MarkState) (obj idx : Nat) (s' : MarkState)
    (h : processField s obj idx = .ok s') : SameMeta s s' := by
  unfold processField at h
  split at h
  · exact Except.noConfusion h
  next toRef s1 hmark =>
    split at h
    · simp only [Except.ok.injEq] at h
      subst h
      exact mark_sameMeta _ _ _ _ hmark
    next writes hupd =>
      simp only [Except.ok.injEq] at h
      subst h
      exact sameMeta_trans (mark_sameMeta _ _ _ _ hmark) (sameMeta_setFieldFold obj idx writes s1)

/-- Helper: `Scan`'s field iteration never touches the immutable heap
metadata. -/
theorem scanFields_sameMeta (obj : Nat) :
    ∀ (idxs : List Nat) (s s' : MarkState),
      scanFields obj idxs s = .ok s' → SameMeta s s' := by
  intro idxs
  induction idxs with
  | nil =>
    intro s s' h
    simp only [scanFields, Except.ok.injEq] at h
    subst h
    exact sameMeta_refl s
  | cons i rest ih =>
    intro s s' h
    unfold scanFields at h
    split at h
    · exact Except.noConfusion h
    next s1 hfield =>
      exact sameMeta_trans (processField_sameMeta _ _ _ _ hfield) (ih _ _ h)

/-- Helper: `Scan` never touches the immutable heap metadata. -/
theorem scan_sameMeta (s : MarkState) (toRef : Nat) (s' : MarkState)
    (h : scan s toRef = .ok s') : SameMeta s s' := by
  unfold scan at h
  split_ifs at h
  exact scanFields_sameMeta _ _ _ _ h

/-- Helper: `maybeAssertObject` returns the state unchanged when it
succeeds. -/
theorem maybeAssertObject_ok (s3 : MarkState) (t : Nat) (s' : MarkState)
    (h : maybeAssertObject s3 t = .ok s') : s' = s3 := by
  unfold maybeAssertObject at h
  split_ifs at h
  all_goals
    simp only [Except.ok.injEq] at h
  all_goals exact h.symm

/-- Helper: the unevac live-byte accounting does not change read-barrier
states. -/
theorem accountUnevacLiveBytes_rb (s2 : MarkState) (t : Nat) (s3 : MarkState)
    (h : accountUnevacLiveBytes s2 t = .ok s3) : s3.rb = s2.rb := by
  unfold accountUnevacLiveBytes at h
  split_ifs at h
  all_goals
    simp only [Except.ok.injEq] at h
  all_goals subst h
  all_goals rfl

/-- Helper: unfolding of the leave-gray condition of `ProcessMarkStackRef`. -/
theorem referentNotInToSpace_iff (s : MarkState) (t : Nat) :
    referentNotInToSpace s t = true ↔
      s.isReferenceClass t = true ∧
        ∃ rr, s.referent t = some rr ∧ isInToSpace s rr = false := by
  unfold referentNotInToSpace
  cases h : s.referent t with
  | none => simp [h]
  | some rr => simp [h, Bool.and_eq_true, Bool.not_eq_true']

/-- C6: for every reference popped from the mark stack, the collector checks
it is gray (Baker mode), scans its reference fields (through `Mark`, inside
`scan`), and then transitions it gray-to-white — except when the object is a
`Reference`-class object whose referent is non-null and not yet in to-space,
in which case the object is left gray. -/
theorem process_mark_stack_ref_gray_to_white (s : MarkState) (toRef : Nat) (s2 : MarkState)
    (hbaker : s.useBaker = true) (hok : processMarkStackRef s toRef = .ok s2) :
    s.rb toRef = .gray ∧
    ∃ s1, scan s toRef = .ok s1 ∧
      (referentNotInToSpace s1 toRef = true → s2.rb toRef = .gray) ∧
      (referentNotInToSpace s1 toRef = false → s2.rb toRef = .white) ∧
      (referentNotInToSpace s1 toRef = true ↔
        s1.isReferenceClass toRef = true ∧
          ∃ rr, s1.referent toRef = some rr ∧ isInToSpace s1 rr = false) := by
  unfold processMarkStackRef at hok
  split_ifs at hok with hfrom hgray
  have hrb : s.rb toRef = .gray := by
    by_contra hne
    exact hgray ⟨hbaker, hne⟩
  refine ⟨hrb, ?_⟩
  split at hok
  · exact Except.noConfusion hok
  next s1 hscan =>
    split_ifs at hok with hgray2
    have hbaker1 : s1.useBaker = true := by
      rw [(scan_sameMeta _ _ _ hscan).1, hbaker]
    have hrb1 : s1.rb toRef = .gray := by
      by_contra hne
      exact hgray2 ⟨hbaker1, hne⟩
    refine ⟨s1, hscan, ?_, ?_, referentNotInToSpace_iff s1 toRef⟩
    all_goals (
      intro hcond
      split at hok
      · exact Except.noConfusion hok
      next s2' hcolor =>
        split at hok
        · exact Except.noConfusion hok
        next s3 hacct =>
          have hs2 := maybeAssertObject_ok _ _ _ hok
          subst hs2
          have hrb3 := accountUnevacLiveBytes_rb _ _ _ hacct
          rw [hrb3]
          unfold colorStep at hcolor
          rw [if_pos hbaker1] at hcolor
          first
          | (rw [if_pos hcond] at hcolor
             split_ifs at hcolor
             simp only [Except.ok.injEq] at hcolor
             subst hcolor
             exact hrb1)
          | (rw [if_neg ?_] at hcolor
             · rw [if_pos hrb1] at hcolor
               simp only [Except.ok.injEq] at hcolor
               subst hcolor
               simp
             · rw [hcond]
               exact Bool.false_ne_true))

/-- Heap for the C6 witness: object 0 is a gray to-space object with one
self-referential field and a non-Reference class. -/
def c6State : MarkState :=
  { c1State with rb := fun a => if a = 0 then .gray else .white }

/-- Witness for C6: processing the gray non-Reference object 0 whitens it. -/
theorem process_mark_stack_ref_gray_to_white_witness :
    ∃ s2, processMarkStackRef c6State 0 = .ok s2 ∧ s2.rb 0 = .white := by
  refine ⟨_, rfl, ?_⟩
  have h := process_mark_stack_ref_gray_to_white c6State 0 _ rfl rfl
  obtain ⟨-, s1, hscan, -, hw, -⟩ := h
  have hs1 : s1 = c6State := by
    have h2 : scan c6State 0 = .ok c6State := rfl
    rw [hscan] at h2
    simp only [Except.ok.injEq] at h2
    exact h2
  subst hs1
  exact hw rfl

/-- Helper: an inserted entry is a member of the skipped-blocks map. -/
theorem mem_insertSkipped (e : Nat × Nat) :
    ∀ (m : List (Nat × Nat)), e ∈ insertSkipped e m := by
  intro m
  induction m with
  | nil => simp [insertSkipped]
  | cons p rest ih =>
    unfold insertSkipped
    split
    · simp
    · simp only [List.mem_cons]
      exact Or.inr ih

/-- Helper: the memcpy step does not change the from-space object's lock
word (a self-copy writes back the same value). -/
theorem memcpyStep_lockWord_self (s : MarkState) (fromRef toRef : Nat) :
    (memcpyStep s fromRef toRef).lockWord fromRef = s.lockWord fromRef := by
  unfold memcpyStep
  by_cases h : fromRef = toRef
  · simp [h]
  · simp [h]

/-- Helper: graying the copy does not change lock words. -/
theorem grayTo_lockWord (s0 : MarkState) (toRef : Nat) :
    (grayTo s0 toRef).lockWord = s0.lockWord := by
  unfold grayTo
  split
  · rfl
  · rfl

/-- Helper: structural spec of a successful `recycleLostCopy`: the counters,
lock words, read-barrier states, copy schedule and mark stack are unchanged,
and the block was recycled through one of the three paths. -/
theorem recycleLostCopy_spec (s0 : MarkState) (toRef bytesAllocated : Nat)
    (fallback : Bool) (s1 : MarkState) (evr : List CopyEvent)
    (h : recycleLostCopy s0 toRef bytesAllocated fallback = .ok (s1, evr)) :
    s1.objectsMoved = s0.objectsMoved ∧ s1.bytesMoved = s0.bytesMoved ∧
    s1.lockWord = s0.lockWord ∧ s1.rb = s0.rb ∧
    s1.copySched = s0.copySched ∧ s1.gcMarkStack = s0.gcMarkStack ∧
    ((fallback = false ∧ bytesAllocated ≤ kRegionSize ∧
        (bytesAllocated, toRef) ∈ s1.skippedBlocksMap ∧
        evr = [.skippedInsertEv bytesAllocated toRef]) ∨
      (fallback = false ∧ kRegionSize < bytesAllocated ∧
        evr = [.freeLargeEv toRef bytesAllocated]) ∨
      (fallback = true ∧ evr = [.nonMovingFreeEv toRef])) := by
  unfold recycleLostCopy at h
  cases fallback
  · rw [if_pos (by simp)] at h
    by_cases hto : s0.regionType toRef ≠ .toSpace
    · rw [if_pos hto] at h
      exact Except.noConfusion h
    · rw [if_neg hto] at h
      by_cases hlarge : bytesAllocated > kRegionSize
      · rw [if_pos hlarge] at h
        simp only [Except.ok.injEq, Prod.mk.injEq] at h
        obtain ⟨hs, hev⟩ := h
        subst hs
        exact ⟨rfl, rfl, rfl, rfl, rfl, rfl, Or.inr (Or.inl ⟨rfl, hlarge, hev.symm⟩)⟩
      · rw [if_neg hlarge] at h
        simp only [Except.ok.injEq, Prod.mk.injEq] at h
        obtain ⟨hs, hev⟩ := h
        subst hs
        exact ⟨rfl, rfl, rfl, rfl, rfl, rfl,
          Or.inl ⟨rfl, by omega, mem_insertSkipped _ _, hev.symm⟩⟩
  · rw [if_neg (by simp)] at h
    by_cases h1 : ¬ s0.nonMovingHasAddress toRef
    · rw [if_pos h1] at h
      exact Except.noConfusion h
    · rw [if_neg h1] at h
      by_cases h2 : ¬ s0.hasContinuousBitmap toRef
      · rw [if_pos h2] at h
        exact Except.noConfusion h
      · rw [if_neg h2] at h
        by_cases h3 : toRef ∉ s0.contBitmap
        · rw [if_pos h3] at h
          exact Except.noConfusion h
        · rw [if_neg h3] at h
          simp only [Except.ok.injEq, Prod.mk.injEq] at h
          obtain ⟨hs, hev⟩ := h
          subst hs
          exact ⟨rfl, rfl, rfl, rfl, rfl, rfl, Or.inr (Or.inr ⟨rfl, hev.symm⟩)⟩

/-- Helper: what passing `lostRaceChecks` guarantees about the winner's
pointer. -/
theorem lostRaceChecks_spec (s1 : MarkState) (toRef w : Nat)
    (h : lostRaceChecks s1 toRef w = .ok ()) :
    w ≠ toRef ∧ (s1.regionType w = .toSpace ∨ s1.nonMovingHasAddress w = true) ∧
    ∃ code, s1.lockWord w = .word code := by
  unfold lostRaceChecks at h
  by_cases h1 : w = toRef
  · rw [if_pos h1] at h
    exact Except.noConfusion h
  · rw [if_neg h1] at h
    by_cases h2 : ¬ (s1.regionType w = .toSpace ∨ s1.nonMovingHasAddress w = true)
    · rw [if_pos h2] at h
      exact Except.noConfusion h
    · rw [if_neg h2] at h
      push_neg at h2
      split at h
      · exact Except.noConfusion h
      next code hcode =>
        refine ⟨h1, ?_, code, hcode⟩
        by_cases hto : s1.regionType w = .toSpace
        · exact Or.inl hto
        · exact Or.inr (h2.resolve_left hto)

/-- Helper: structural spec of a successful `lostStep`: the loser's counters,
lock words, read-barrier states and copy schedule are unchanged, the winner's
pointer passed its checks, and the dummy-fill plus recycling happened. -/
theorem lostStep_spec (s0 : MarkState) (toRef bytesAllocated : Nat) (fallback : Bool)
    (w : Nat) (s1 : MarkState) (evl : List CopyEvent)
    (h : lostStep s0 toRef bytesAllocated fallback w = .ok (s1, evl)) :
    s1.objectsMoved = s0.objectsMoved ∧ s1.bytesMoved = s0.bytesMoved ∧
    s1.lockWord = s0.lockWord ∧ s1.copySched = s0.copySched ∧
    w ≠ toRef ∧ (s1.regionType w = .toSpace ∨ s1.nonMovingHasAddress w = true) ∧
    (∃ code, s1.lockWord w = .word code) ∧
    (∃ evr, evl = CopyEvent.fillDummyEv toRef bytesAllocated :: evr) ∧
    ((fallback = false ∧ bytesAllocated ≤ kRegionSize ∧
        (bytesAllocated, toRef) ∈ s1.skippedBlocksMap ∧
        evl = [.fillDummyEv toRef bytesAllocated, .skippedInsertEv bytesAllocated toRef]) ∨
      (fallback = false ∧ kRegionSize < bytesAllocated ∧
        evl = [.fillDummyEv toRef bytesAllocated, .freeLargeEv toRef bytesAllocated]) ∨
      (fallback = true ∧
        evl = [.fillDummyEv toRef bytesAllocated, .nonMovingFreeEv toRef])) := by
  unfold lostStep at h
  split at h
  · exact Except.noConfusion h
  · split at h
    · exact Except.noConfusion h
    next s1' evr hrec =>
      split at h
      · exact Except.noConfusion h
      next u hchecks =>
        simp only [Except.ok.injEq, Prod.mk.injEq] at h
        obtain ⟨hs, hev⟩ := h
        subst hs
        obtain ⟨h1, h2, h3, -, h5, -, hrecycle⟩ := recycleLostCopy_spec _ _ _ _ _ _ hrec
        obtain ⟨hne, hcls, hcode⟩ := lostRaceChecks_spec _ _ _ (by cases u; exact hchecks)
        refine ⟨h1, h2, h3, h5, hne, hcls, hcode, ⟨evr, hev.symm⟩, ?_⟩
        rcases hrecycle with ⟨ha, hb, hc, hd⟩ | ⟨ha, hb, hc⟩ | ⟨ha, hb⟩
        · exact Or.inl ⟨ha, hb, hc, by rw [← hev, hd]⟩
        · exact Or.inr (Or.inl ⟨ha, hb, by rw [← hev, hc]⟩)
        · exact Or.inr (Or.inr ⟨ha, by rw [← hev, hb]⟩)

/-- Helper: projections of `applyInterf` other than the lock word. -/
theorem applyInterf_proj (s1 : MarkState) (fromRef : Nat) (interf : Option LockWord) :
    (applyInterf s1 fromRef interf).objectsMoved = s1.objectsMoved ∧
    (applyInterf s1 fromRef interf).bytesMoved = s1.bytesMoved ∧
    (applyInterf s1 fromRef interf).rb = s1.rb ∧
    (applyInterf s1 fromRef interf).copySched = s1.copySched ∧
    (applyInterf s1 fromRef interf).gcMarkStack = s1.gcMarkStack ∧
    (applyInterf s1 fromRef interf).useBaker = s1.useBaker := by
  cases interf
  · exact ⟨rfl, rfl, rfl, rfl, rfl, rfl⟩
  · exact ⟨rfl, rfl, rfl, rfl, rfl, rfl⟩

/-- Helper: projections of `grayTo`. -/
theorem grayTo_proj (s0 : MarkState) (toRef : Nat) :
    (grayTo s0 toRef).objectsMoved = s0.objectsMoved ∧
    (grayTo s0 toRef).bytesMoved = s0.bytesMoved ∧
    (grayTo s0 toRef).lockWord = s0.lockWord ∧
    (grayTo s0 toRef).copySched = s0.copySched ∧
    (grayTo s0 toRef).gcMarkStack = s0.gcMarkStack ∧
    (grayTo s0 toRef).useBaker = s0.useBaker ∧
    (s0.useBaker = true → (grayTo s0 toRef).rb toRef = .gray) := by
  unfold grayTo
  split
  · refine ⟨rfl, rfl, rfl, rfl, rfl, rfl, fun _ => ?_⟩
    simp
  next hb =>
    refine ⟨rfl, rfl, rfl, rfl, rfl, rfl, fun hbt => absurd hbt hb⟩

/-- Helper: structural spec of a successful CAS: the winner's counters were
bumped, the forwarding pointer points at the copy, the copy is gray (Baker)
and pushed onto the mark stack, and the events record the gray step followed
by the CAS and the push. -/
theorem casStep_success_spec (s0 : MarkState) (old : LockWord) (fromRef toRef allocSize : Nat)
    (fallback : Bool) (interf : Option LockWord) (spurious : Bool)
    (sWin : MarkState) (evs : List CopyEvent)
    (h : casStep s0 old fromRef toRef allocSize fallback interf spurious =
      .ok (.success sWin evs)) :
    evs = (if s0.useBaker then [CopyEvent.setGrayEv toRef] else []) ++
      [CopyEvent.casSuccessEv fromRef toRef, CopyEvent.pushEv toRef] ∧
    sWin.objectsMoved = s0.objectsMoved + 1 ∧
    sWin.bytesMoved = s0.bytesMoved + allocSize ∧
    sWin.lockWord fromRef = .fwd toRef ∧
    (s0.useBaker = true → sWin.rb toRef = .gray) ∧
    toRef ∈ sWin.gcMarkStack ∧
    sWin.copySched = s0.copySched ∧
    sWin.useBaker = s0.useBaker := by
  unfold casStep at h
  by_cases hc : (applyInterf (grayTo s0 toRef) fromRef interf).lockWord fromRef = old ∧
      spurious = false
  · rw [if_pos hc] at h
    split at h
    · exact Except.noConfusion h
    · simp only [Except.ok.injEq, CasOutcome.success.injEq] at h
      obtain ⟨hs, hev⟩ := h
      subst hs
      subst hev
      obtain ⟨ha1, ha2, ha3, ha4, ha5, ha6⟩ :=
        applyInterf_proj (grayTo s0 toRef) fromRef interf
      obtain ⟨hg1, hg2, hg3, hg4, hg5, hg6, hg7⟩ := grayTo_proj s0 toRef
      refine ⟨rfl, ?_, ?_, ?_, ?_, ?_, ?_, ?_⟩
      · simp only [pushMarkStack, installFwd]
        rw [ha1, hg1]
      · simp only [pushMarkStack, installFwd]
        rw [ha2, hg2]
      · simp only [pushMarkStack, installFwd]
        simp
      · intro hb
        simp only [pushMarkStack, installFwd]
        rw [ha3]
        exact hg7 hb
      · simp only [pushMarkStack, installFwd]
        simp
      · simp only [pushMarkStack, installFwd]
        rw [ha4, hg4]
      · simp only [pushMarkStack, installFwd]
        rw [ha6, hg6]
  · rw [if_neg hc] at h
    simp only [Except.ok.injEq] at h
    exact CasOutcome.noConfusion h

/-- Helper: structural spec of a failed CAS: the retry state keeps the
counters and read-barrier style, and the events record at most the gray
step. -/
theorem casStep_failure_spec (s0 : MarkState) (old : LockWord) (fromRef toRef allocSize : Nat)
    (fallback : Bool) (interf : Option LockWord) (spurious : Bool)
    (s2 : MarkState) (evs : List CopyEvent)
    (h : casStep s0 old fromRef toRef allocSize fallback interf spurious =
      .ok (.failure s2 evs)) :
    s2.objectsMoved = s0.objectsMoved ∧ s2.bytesMoved = s0.bytesMoved ∧
    s2.useBaker = s0.useBaker ∧
    evs = (if s0.useBaker then [CopyEvent.setGrayEv toRef] else []) := by
  unfold casStep at h
  by_cases hc : (applyInterf (grayTo s0 toRef) fromRef interf).lockWord fromRef = old ∧
      spurious = false
  · rw [if_pos hc] at h
    split at h
    · exact Except.noConfusion h
    · simp only [Except.ok.injEq] at h
      exact CasOutcome.noConfusion h
  · rw [if_neg hc] at h
    simp only [Except.ok.injEq, CasOutcome.failure.injEq] at h
    obtain ⟨hs, hev⟩ := h
    subst hs
    subst hev
    obtain ⟨ha1, ha2, -, -, -, ha6⟩ := applyInterf_proj (grayTo s0 toRef) fromRef interf
    obtain ⟨hg1, hg2, -, -, -, hg6, -⟩ := grayTo_proj s0 toRef
    exact ⟨by rw [ha1, hg1], by rw [ha2, hg2], by rw [ha6, hg6], rfl⟩

/-- Helper: indexing an appended list past the first part. -/
theorem getElem?_append_offset {α : Type _} (l1 l2 : List α) (n : Nat) :
    (l1 ++ l2)[l1.length + n]? = l2[n]? := by
  induction l1 with
  | nil => simp
  | cons a t ih => simpa [Nat.succ_add] using ih

/-- Helper: a skipped-block allocation changes only the skipped-blocks map. -/
theorem allocateInSkippedBlock_proj (s : MarkState) (allocSize : Nat)
    (res : Option Nat) (s1 : MarkState)
    (h : allocateInSkippedBlock s allocSize = .ok (res, s1)) :
    s1.objectsMoved = s.objectsMoved ∧ s1.bytesMoved = s.bytesMoved ∧
    s1.lockWord = s.lockWord ∧ s1.copySched = s.copySched ∧
    s1.useBaker = s.useBaker ∧ s1.rb = s.rb ∧ s1.gcMarkStack = s.gcMarkStack ∧
    s1.nonMovingAllocQueue = s.nonMovingAllocQueue ∧
    s1.hasContinuousBitmap = s.hasContinuousBitmap ∧
    s1.contBitmap = s.contBitmap := by
  unfold allocateInSkippedBlock at h
  split at h
  · exact Except.noConfusion h
  · simp only [Except.ok.injEq, Prod.mk.injEq] at h
    obtain ⟨-, hs⟩ := h
    subst hs
    exact ⟨rfl, rfl, rfl, rfl, rfl, rfl, rfl, rfl, rfl, rfl⟩
  · simp only [Except.ok.injEq, Prod.mk.injEq] at h
    obtain ⟨-, hs⟩ := h
    subst hs
    exact ⟨rfl, rfl, rfl, rfl, rfl, rfl, rfl, rfl, rfl, rfl⟩

/-- Helper: the allocation cascade never touches the copy machinery's state:
counters, lock words, read-barrier states, copy schedule and mark stack are
those of the input. -/
theorem copyAllocate_proj (s : MarkState) (allocSize toRef bytes : Nat) (fb : Bool)
    (s1 : MarkState)
    (h : copyAllocate s allocSize = .ok (toRef, bytes, fb, s1)) :
    s1.objectsMoved = s.objectsMoved ∧ s1.bytesMoved = s.bytesMoved ∧
    s1.lockWord = s.lockWord ∧ s1.copySched = s.copySched ∧
    s1.useBaker = s.useBaker ∧ s1.rb = s.rb ∧ s1.gcMarkStack = s.gcMarkStack := by
  unfold copyAllocate at h
  split at h
  · simp only [Except.ok.injEq, Prod.mk.injEq] at h
    obtain ⟨-, -, -, hs⟩ := h
    subst hs
    exact ⟨rfl, rfl, rfl, rfl, rfl, rfl, rfl⟩
  · split at h
    · exact Except.noConfusion h
    next addr s2 hsk =>
      simp only [Except.ok.injEq, Prod.mk.injEq] at h
      obtain ⟨-, -, -, hs⟩ := h
      subst hs
      obtain ⟨h1, h2, h3, h4, h5, h6, h7, -, -, -⟩ :=
        allocateInSkippedBlock_proj _ _ _ _ hsk
      exact ⟨h1, h2, h3, h4, h5, h6, h7⟩
    next s2 hsk =>
      obtain ⟨h1, h2, h3, h4, h5, h6, h7, h8, h9, h10⟩ :=
        allocateInSkippedBlock_proj _ _ _ _ hsk
      split at h
      · exact Except.noConfusion h
      · split_ifs at h
        simp only [Except.ok.injEq, Prod.mk.injEq] at h
        obtain ⟨-, -, -, hs⟩ := h
        subst hs
        exact ⟨h1, h2, h3, h4, h5, h6, h7⟩

/-- Helper: on a benign schedule entry (no interference, no spurious
failure) a CAS attempt against the unchanged lock word cannot fail. -/
theorem casStep_benign_not_failure (s0 : MarkState) (fromRef toRef allocSize : Nat)
    (fallback : Bool) (s2 : MarkState) (evs : List CopyEvent)
    (h : casStep s0 (s0.lockWord fromRef) fromRef toRef allocSize fallback none false =
      .ok (.failure s2 evs)) : False := by
  unfold casStep at h
  rw [if_pos ?_] at h
  · split at h
    · exact Except.noConfusion h
    · simp only [Except.ok.injEq] at h
      exact CasOutcome.noConfusion h
  · constructor
    · show (applyInterf (grayTo s0 toRef) fromRef none).lockWord fromRef = s0.lockWord fromRef
      unfold applyInterf
      rw [grayTo_lockWord]
    · rfl

/-- Helper: if the forwarding loop starts with a forwarding address already
installed, it loses the race at its first iteration: it returns the winner's
pointer, leaves the moved counters and the forwarding pointer alone, fills
the abandoned block with a dummy object and recycles it. -/
theorem copyLoop_lost_first (fromRef toRef allocSize bytesAllocated : Nat) (fallback : Bool)
    (sched : List (Option LockWord × Bool)) (s : MarkState) (ev : List CopyEvent)
    (w r : Nat) (s' : MarkState) (ev' : List CopyEvent)
    (hfwd : s.lockWord fromRef = .fwd w)
    (hok : copyLoop fromRef toRef allocSize bytesAllocated fallback sched s ev =
      .ok (r, s', ev')) :
    r = w ∧ s'.objectsMoved = s.objectsMoved ∧ s'.bytesMoved = s.bytesMoved ∧
    s'.lockWord fromRef = .fwd w ∧
    CopyEvent.fillDummyEv toRef bytesAllocated ∈ ev' ∧
    ((fallback = false ∧ bytesAllocated ≤ kRegionSize ∧
        (bytesAllocated, toRef) ∈ s'.skippedBlocksMap) ∨
      (fallback = false ∧ kRegionSize < bytesAllocated ∧
        CopyEvent.freeLargeEv toRef bytesAllocated ∈ ev') ∨
      (fallback = true ∧ CopyEvent.nonMovingFreeEv toRef ∈ ev')) := by
  cases sched with
  | nil => exact Except.noConfusion hok
  | cons p rest =>
    obtain ⟨interf, spurious⟩ := p
    unfold copyLoop at hok
    split at hok
    next w' heq =>
      rw [hfwd] at heq
      injection heq with hww
      subst hww
      split at hok
      · exact Except.noConfusion hok
      next s1 evl hlost =>
        simp only [Except.ok.injEq, Prod.mk.injEq] at hok
        obtain ⟨hr, hs, hev⟩ := hok
        subst hs
        subst hev
        obtain ⟨h1, h2, h3, -, -, -, -, ⟨evr, hshape⟩, hrec⟩ :=
          lostStep_spec _ _ _ _ _ _ _ hlost
        refine ⟨hr.symm, ?_, ?_, ?_, ?_, ?_⟩
        · exact h1
        · exact h2
        · show s1.lockWord fromRef = .fwd w
          rw [h3, memcpyStep_lockWord_self, hfwd]
        · rw [hshape]
          simp
        · rcases hrec with ⟨ha, hb, hc, -⟩ | ⟨ha, hb, hc⟩ | ⟨ha, hb⟩
          · exact Or.inl ⟨ha, hb, hc⟩
          · refine Or.inr (Or.inl ⟨ha, hb, ?_⟩)
            rw [hc]
            simp
          · refine Or.inr (Or.inr ⟨ha, ?_⟩)
            rw [hb]
            simp
    next c heq =>
      rw [hfwd] at heq
      exact LockWord.noConfusion heq

/-- Helper: on a benign first schedule entry an unforwarded object is copied
at the first iteration: the CAS cannot fail, the counters are bumped once,
the forwarding pointer now points at the copy, which is gray (Baker) and on
the mark stack. -/
theorem copyLoop_benign_win (fromRef toRef allocSize bytesAllocated : Nat) (fallback : Bool)
    (rest : List (Option LockWord × Bool)) (s : MarkState) (ev : List CopyEvent)
    (c r : Nat) (s' : MarkState) (ev' : List CopyEvent)
    (hword : s.lockWord fromRef = .word c)
    (hok : copyLoop fromRef toRef allocSize bytesAllocated fallback
      ((none, false) :: rest) s ev = .ok (r, s', ev')) :
    r = toRef ∧ s'.objectsMoved = s.objectsMoved + 1 ∧
    s'.bytesMoved = s.bytesMoved + allocSize ∧
    s'.lockWord fromRef = .fwd toRef ∧
    (s.useBaker = true → s'.rb toRef = .gray) ∧
    toRef ∈ s'.gcMarkStack ∧ s'.copySched = rest := by
  unfold copyLoop at hok
  split at hok
  next w' heq =>
    rw [hword] at heq
    exact LockWord.noConfusion heq
  next c' heq =>
    split at hok
    · exact Except.noConfusion hok
    next sWin evs hcas =>
      simp only [Except.ok.injEq, Prod.mk.injEq] at hok
      obtain ⟨hr, hs, -⟩ := hok
      subst hs
      obtain ⟨-, h2, h3, h4, h5, h6, -, h8⟩ := casStep_success_spec _ _ _ _ _ _ _ _ _ _ hcas
      refine ⟨hr.symm, ?_, ?_, ?_, ?_, ?_, rfl⟩
      · exact h2
      · exact h3
      · exact h4
      · exact h5
      · exact h6
    next s2 evs hcas =>
      exfalso
      rw [← memcpyStep_lockWord_self s fromRef toRef] at hcas
      exact casStep_benign_not_failure _ _ _ _ _ _ _ hcas

/-- Helper: if the forwarding loop's result carries a successful-CAS event for
its own return value, this call won the race: the result is the fresh copy,
the counters were bumped exactly once, the forwarding pointer points at the
copy, the copy is gray (Baker) and on the mark stack, and the trace grays the
copy strictly before the CAS. -/
theorem copyLoop_win_spec (fromRef toRef allocSize bytesAllocated : Nat) (fallback : Bool) :
    ∀ (sched : List (Option LockWord × Bool)) (s : MarkState) (ev : List CopyEvent)
      (r : Nat) (s' : MarkState) (ev' : List CopyEvent),
      copyLoop fromRef toRef allocSize bytesAllocated fallback sched s ev =
        .ok (r, s', ev') →
      CopyEvent.casSuccessEv fromRef r ∈ ev' →
      CopyEvent.casSuccessEv fromRef r ∉ ev →
      r = toRef ∧ s'.objectsMoved = s.objectsMoved + 1 ∧
      s'.bytesMoved = s.bytesMoved + allocSize ∧
      s'.lockWord fromRef = .fwd toRef ∧
      (s.useBaker = true → s'.rb toRef = .gray) ∧
      toRef ∈ s'.gcMarkStack ∧
      (s.useBaker = true →
        ∃ (i j : Nat), i < j ∧ ev'[i]? = some (CopyEvent.setGrayEv toRef) ∧
          ev'[j]? = some (CopyEvent.casSuccessEv fromRef toRef)) := by
  intro sched
  induction sched with
  | nil =>
    intro s ev r s' ev' hok
    exact Except.noConfusion hok
  | cons p rest ih =>
    obtain ⟨interf, spurious⟩ := p
    intro s ev r s' ev' hok hwin hnotin
    unfold copyLoop at hok
    split at hok
    next w' heq =>
      split at hok
      · exact Except.noConfusion hok
      next s1 evl hlost =>
        exfalso
        simp only [Except.ok.injEq, Prod.mk.injEq] at hok
        obtain ⟨hr, -, hev⟩ := hok
        subst hev
        obtain ⟨-, -, -, -, -, -, -, -, hrec⟩ := lostStep_spec _ _ _ _ _ _ _ hlost
        rcases hrec with ⟨-, -, -, hd⟩ | ⟨-, -, hd⟩ | ⟨-, hd⟩ <;>
          (rw [hd] at hwin; simp only [List.mem_append, List.mem_cons,
            List.mem_singleton, List.not_mem_nil] at hwin;
           rcases hwin with (hwin | hwin) | hwin <;> simp_all)
    next c heq =>
      split at hok
      · exact Except.noConfusion hok
      next sWin evs hcas =>
        simp only [Except.ok.injEq, Prod.mk.injEq] at hok
        obtain ⟨hr, hs, hev⟩ := hok
        subst hs
        subst hev
        obtain ⟨hevs, h2, h3, h4, h5, h6, -, -⟩ :=
          casStep_success_spec _ _ _ _ _ _ _ _ _ _ hcas
        refine ⟨hr.symm, h2, h3, h4, h5, h6, ?_⟩
        intro hb
        have hbm : (memcpyStep s fromRef toRef).useBaker = true := hb
        rw [if_pos hbm] at hevs
        refine ⟨(ev ++ [CopyEvent.memcpyEv toRef fromRef]).length,
          (ev ++ [CopyEvent.memcpyEv toRef fromRef]).length + 1, Nat.lt_succ_self _, ?_, ?_⟩
        · have h0 := getElem?_append_offset (ev ++ [CopyEvent.memcpyEv toRef fromRef]) evs 0
          rw [Nat.add_zero] at h0
          rw [h0, hevs]
          rfl
        · have h1 := getElem?_append_offset (ev ++ [CopyEvent.memcpyEv toRef fromRef]) evs 1
          rw [h1, hevs]
          rfl
      next s2 evs hcas =>
        obtain ⟨hf1, hf2, hf3, hfev⟩ := casStep_failure_spec _ _ _ _ _ _ _ _ _ _ hcas
        have hnotin2 : CopyEvent.casSuccessEv fromRef r ∉
            ev ++ [CopyEvent.memcpyEv toRef fromRef] ++ evs := by
          rw [hfev]
          by_cases hb : (memcpyStep s fromRef toRef).useBaker = true
          · rw [if_pos hb]
            simp only [List.mem_append, List.mem_singleton, List.not_mem_nil]
            rintro ((hx | hx) | hx)
            · exact hnotin hx
            · exact CopyEvent.noConfusion hx
            · exact CopyEvent.noConfusion hx
          · rw [if_neg hb]
            simp only [List.mem_append, List.mem_singleton, List.not_mem_nil]
            rintro ((hx | hx) | hx)
            · exact hnotin hx
            · exact CopyEvent.noConfusion hx
            · exact hx
        obtain ⟨g1, g2, g3, g4, g5, g6, g7⟩ := ih s2 _ r s' ev' hok hwin hnotin2
        have hub : s2.useBaker = s.useBaker := hf3
        refine ⟨g1, ?_, ?_, g4, ?_, g6, ?_⟩
        · rw [g2, hf1]
          rfl
        · rw [g3, hf2]
          rfl
        · intro hb
          exact g5 (by rw [hub]; exact hb)
        · intro hb
          exact g7 (by rw [hub]; exact hb)

/-- Helper: `Copy` of an already-forwarded from-space object returns the
winner's forwarding address, leaves the counters and the forwarding pointer
alone, fills its abandoned block with a dummy object and recycles it. -/
theorem copy_lost_helper (s : MarkState) (fromRef w r : Nat) (s' : MarkState)
    (ev : List CopyEvent) (hfwd : s.lockWord fromRef = .fwd w)
    (hok : copy s fromRef = .ok (r, s', ev)) :
    r = w ∧ s'.objectsMoved = s.objectsMoved ∧ s'.bytesMoved = s.bytesMoved ∧
    s'.lockWord fromRef = .fwd w ∧
    ∃ toRef bytes, CopyEvent.fillDummyEv toRef bytes ∈ ev ∧
      ((bytes ≤ kRegionSize ∧ (bytes, toRef) ∈ s'.skippedBlocksMap) ∨
        (kRegionSize < bytes ∧ CopyEvent.freeLargeEv toRef bytes ∈ ev) ∨
        CopyEvent.nonMovingFreeEv toRef ∈ ev) := by
  unfold copy at hok
  by_cases hreg : s.regionType fromRef ≠ .fromSpace
  · rw [if_pos hreg] at hok
    exact Except.noConfusion hok
  · rw [if_neg hreg] at hok
    split at hok
    · exact Except.noConfusion hok
    next toRef bytes fb s1 halloc =>
      obtain ⟨p1, p2, p3, -, -, -, -⟩ := copyAllocate_proj _ _ _ _ _ _ halloc
      have hfwd1 : s1.lockWord fromRef = .fwd w := by rw [p3]; exact hfwd
      obtain ⟨q1, q2, q3, q4, q5, q6⟩ :=
        copyLoop_lost_first _ _ _ _ _ _ _ _ _ _ _ _ hfwd1 hok
      refine ⟨q1, by rw [q2, p1], by rw [q3, p2], q4, toRef, bytes, q5, ?_⟩
      rcases q6 with ⟨-, hb, hc⟩ | ⟨-, hb, hc⟩ | ⟨-, hb⟩
      · exact Or.inl ⟨hb, hc⟩
      · exact Or.inr (Or.inl ⟨hb, hc⟩)
      · exact Or.inr (Or.inr hb)

/-- Helper: `Copy` of an unforwarded from-space object whose first schedule
entry is benign wins the race: counters bumped once, forwarding pointer
installed to the returned copy, which is gray (Baker) and on the mark
stack. -/
theorem copy_benign_helper (s : MarkState) (fromRef c : Nat)
    (rest : List (Option LockWord × Bool)) (r : Nat) (s' : MarkState) (ev : List CopyEvent)
    (hword : s.lockWord fromRef = .word c)
    (hsched : s.copySched = (none, false) :: rest)
    (hok : copy s fromRef = .ok (r, s', ev)) :
    s'.objectsMoved = s.objectsMoved + 1 ∧
    s'.bytesMoved = s.bytesMoved + roundUp (s.sizeOf fromRef) kAlignment ∧
    s'.lockWord fromRef = .fwd r ∧
    (s.useBaker = true → s'.rb r = .gray) ∧ r ∈ s'.gcMarkStack := by
  unfold copy at hok
  by_cases hreg : s.regionType fromRef ≠ .fromSpace
  · rw [if_pos hreg] at hok
    exact Except.noConfusion hok
  · rw [if_neg hreg] at hok
    split at hok
    · exact Except.noConfusion hok
    next toRef bytes fb s1 halloc =>
      obtain ⟨p1, p2, p3, p4, p5, -, -⟩ := copyAllocate_proj _ _ _ _ _ _ halloc
      have hword1 : s1.lockWord fromRef = .word c := by rw [p3]; exact hword
      rw [p4, hsched] at hok
      obtain ⟨q1, q2, q3, q4, q5, q6, -⟩ :=
        copyLoop_benign_win _ _ _ _ _ _ _ _ _ _ _ _ hword1 hok
      subst q1
      refine ⟨by rw [q2, p1], by rw [q3, p2], q4, ?_, q6⟩
      intro hb
      exact q5 (by rw [p5]; exact hb)

/-- Helper: once the forwarding pointer is installed, every further racing
`Copy` returns the same winner's address and never moves the counters. -/
theorem raceCopy_after_forward (fromRef t : Nat) :
    ∀ (n : Nat) (u : MarkState) (rs : List Nat) (u' : MarkState),
      u.lockWord fromRef = .fwd t →
      raceCopy fromRef n u = .ok (rs, u') →
      rs = List.replicate n t ∧ u'.objectsMoved = u.objectsMoved ∧
      u'.lockWord fromRef = .fwd t := by
  intro n
  induction n with
  | zero =>
    intro u rs u' hfwd hok
    simp only [raceCopy, Except.ok.injEq, Prod.mk.injEq] at hok
    obtain ⟨h1, h2⟩ := hok
    subst h2
    exact ⟨h1.symm, rfl, hfwd⟩
  | succ n ih =>
    intro u rs u' hfwd hok
    unfold raceCopy at hok
    split at hok
    · exact Except.noConfusion hok
    next r1 u1 evc hcopy =>
      split at hok
      · exact Except.noConfusion hok
      next rs2 u2 hrest =>
        simp only [Except.ok.injEq, Prod.mk.injEq] at hok
        obtain ⟨h1, h2⟩ := hok
        subst h2
        obtain ⟨hr1, ho, -, hlw, -⟩ := copy_lost_helper _ _ _ _ _ _ hfwd hcopy
        obtain ⟨hrs2, ho2, hlw2⟩ := ih u1 rs2 u2 hlw hrest
        subst hr1
        refine ⟨?_, by rw [ho2, ho], hlw2⟩
        rw [← h1, hrs2, List.replicate_succ]

/-- C2: When `Copy` loses the forwarding race (it observes a forwarding
address in the from-space object's lock word), it returns the winner's
forwarding address, does not increment `objects_moved` or `bytes_moved`,
fills its own allocation with a dummy object and recycles it (skipped-blocks
map / `FreeLarge` for blocks over a region / non-moving free on the fallback
path); consequently when racing callers evacuate the same object, exactly
one increments `objects_moved` and all callers receive the same to-space
reference. -/
theorem copy_lost_race_recycles_and_moves_once :
    (∀ (s : MarkState) (fromRef w r : Nat) (s' : MarkState) (ev : List CopyEvent),
      s.lockWord fromRef = .fwd w →
      copy s fromRef = .ok (r, s', ev) →
      r = w ∧ s'.objectsMoved = s.objectsMoved ∧ s'.bytesMoved = s.bytesMoved ∧
      s'.lockWord fromRef = .fwd w ∧
      ∃ toRef bytes, CopyEvent.fillDummyEv toRef bytes ∈ ev ∧
        ((bytes ≤ kRegionSize ∧ (bytes, toRef) ∈ s'.skippedBlocksMap) ∨
          (kRegionSize < bytes ∧ CopyEvent.freeLargeEv toRef bytes ∈ ev) ∨
          CopyEvent.nonMovingFreeEv toRef ∈ ev)) ∧
    (∀ (s : MarkState) (fromRef c : Nat) (restSched : List (Option LockWord × Bool))
      (n : Nat) (rs : List Nat) (s' : MarkState),
      s.lockWord fromRef = .word c →
      s.copySched = (none, false) :: restSched →
      raceCopy fromRef (n + 1) s = .ok (rs, s') →
      s'.objectsMoved = s.objectsMoved + 1 ∧
      ∃ t, rs = t :: List.replicate n t) := by
  constructor
  · intro s fromRef w r s' ev hfwd hok
    exact copy_lost_helper s fromRef w r s' ev hfwd hok
  · intro s fromRef c restSched n rs s' hword hsched hok
    unfold raceCopy at hok
    split at hok
    · exact Except.noConfusion hok
    next r1 s1 ev1 hcopy =>
      split at hok
      · exact Except.noConfusion hok
      next rs2 s2 hrest =>
        simp only [Except.ok.injEq, Prod.mk.injEq] at hok
        obtain ⟨h1, h2⟩ := hok
        subst h2
        obtain ⟨ho1, -, hlw1, -, -⟩ :=
          copy_benign_helper s fromRef c restSched r1 s1 ev1 hword hsched hcopy
        obtain ⟨hrs2, ho2, -⟩ := raceCopy_after_forward fromRef r1 n s1 rs2 s2 hlw1 hrest
        refine ⟨by rw [ho2, ho1], r1, ?_⟩
        rw [← h1, hrs2]

/-- Concrete heap for the C2 witness, lost-race part: object 1 already
carries a forwarding address to 5, and the region space can hand out block
9. -/
def c2State : MarkState :=
  { c1State with
      regionType := fun a => if a = 9 ∨ a = 5 then .toSpace else .fromSpace,
      lockWord := fun a => if a = 1 then .fwd 5 else .word 0,
      regionAllocQueue := [some 9],
      copySched := [((none : Option LockWord), false)] }

/-- Concrete heap for the C2 witness, race part: two linearized callers copy
object 1; the region space hands out blocks 9 then 17. -/
def c2RaceState : MarkState :=
  { c1State with
      regionType := fun a => if a = 9 ∨ a = 17 then .toSpace else .fromSpace,
      regionAllocQueue := [some 9, some 17],
      copySched := [((none : Option LockWord), false), (none, false)] }

/-- Witness for C2: on `c2State` the lost call returns the winner's address 5
without moving the counters and fills its block; on `c2RaceState` two racing
callers both get the same copy and `objects_moved` rises by exactly one. -/
theorem copy_lost_race_recycles_and_moves_once_witness :
    (∃ s' ev, copy c2State 1 = .ok (5, s', ev) ∧
      s'.objectsMoved = c2State.objectsMoved ∧
      ∃ toRef bytes, CopyEvent.fillDummyEv toRef bytes ∈ ev) ∧
    (∃ rs s', raceCopy 1 2 c2RaceState = .ok (rs, s') ∧
      s'.objectsMoved = c2RaceState.objectsMoved + 1 ∧ ∃ t, rs = [t, t]) := by
  constructor
  · obtain ⟨s', ev, hok⟩ : ∃ s' ev, copy c2State 1 = .ok (5, s', ev) := ⟨_, _, rfl⟩
    have h := copy_lost_race_recycles_and_moves_once.1 c2State 1 5 5 s' ev rfl hok
    obtain ⟨-, ho, -, -, toRef, bytes, hfill, -⟩ := h
    exact ⟨s', ev, hok, ho, toRef, bytes, hfill⟩
  · obtain ⟨rs, s', hok⟩ : ∃ rs s', raceCopy 1 2 c2RaceState = .ok (rs, s') := ⟨_, _, rfl⟩
    have h := copy_lost_race_recycles_and_moves_once.2 c2RaceState 1 0
      [((none : Option LockWord), false)] 1 rs s' rfl rfl hok
    obtain ⟨ho, t, ht⟩ := h
    exact ⟨rs, s', hok, ho, t, by rw [ht]; rfl⟩

/-- C3: when a `Copy` call wins the forwarding race (its trace carries the
successful CAS on the returned reference), the trace sets the copy's
read-barrier state to gray strictly before the CAS (Baker mode), and
afterwards the copy is gray, the forwarding pointer points at it, the moved
counters are incremented, and the copy is on the GC mark stack. -/
theorem copy_grays_before_cas (s : MarkState) (fromRef r : Nat) (s' : MarkState)
    (ev : List CopyEvent)
    (hbaker : s.useBaker = true)
    (hok : copy s fromRef = .ok (r, s', ev))
    (hwin : CopyEvent.casSuccessEv fromRef r ∈ ev) :
    (∃ (i j : Nat), i < j ∧ ev[i]? = some (CopyEvent.setGrayEv r) ∧
      ev[j]? = some (CopyEvent.casSuccessEv fromRef r)) ∧
    s'.rb r = .gray ∧ s'.lockWord fromRef = .fwd r ∧
    s'.objectsMoved = s.objectsMoved + 1 ∧
    s'.bytesMoved = s.bytesMoved + roundUp (s.sizeOf fromRef) kAlignment ∧
    r ∈ s'.gcMarkStack := by
  unfold copy at hok
  by_cases hreg : s.regionType fromRef ≠ .fromSpace
  · rw [if_pos hreg] at hok
    exact Except.noConfusion hok
  · rw [if_neg hreg] at hok
    split at hok
    · exact Except.noConfusion hok
    next toRef bytes fb s1 halloc =>
      obtain ⟨p1, p2, -, -, p5, -, -⟩ := copyAllocate_proj _ _ _ _ _ _ halloc
      have hb1 : s1.useBaker = true := by rw [p5]; exact hbaker
      obtain ⟨g1, g2, g3, g4, g5, g6, g7⟩ :=
        copyLoop_win_spec fromRef toRef (roundUp (s.sizeOf fromRef) kAlignment) bytes fb
          s1.copySched s1 [] r s' ev hok hwin (List.not_mem_nil _)
      subst g1
      refine ⟨g7 hb1, g5 hb1, g4, ?_, ?_, g6⟩
      · rw [g2, p1]
      · rw [g3, p2]

/-- Concrete heap for the C3 witness: object 1 is unforwarded in from-space,
the region space hands out block 9, and the single schedule entry is
benign. -/
def c3State : MarkState :=
  { c1State with
      regionType := fun a => if a = 9 then .toSpace else .fromSpace,
      regionAllocQueue := [some 9],
      copySched := [((none : Option LockWord), false)] }

/-- Witness for C3: copying object 1 on `c3State` wins the race, the trace
grays copy 9 before the CAS, and afterwards 9 is gray and counted. -/
theorem copy_grays_before_cas_witness :
    ∃ s', copy c3State 1 = .ok (9, s',
      [CopyEvent.memcpyEv 9 1, CopyEvent.setGrayEv 9,
        CopyEvent.casSuccessEv 1 9, CopyEvent.pushEv 9]) ∧
      s'.rb 9 = .gray ∧ s'.lockWord 1 = .fwd 9 ∧
      s'.objectsMoved = c3State.objectsMoved + 1 ∧
      ∃ (i j : Nat), i < j ∧
        [CopyEvent.memcpyEv 9 1, CopyEvent.setGrayEv 9,
          CopyEvent.casSuccessEv 1 9, CopyEvent.pushEv 9][i]? =
          some (CopyEvent.setGrayEv 9) ∧
        [CopyEvent.memcpyEv 9 1, CopyEvent.setGrayEv 9,
          CopyEvent.casSuccessEv 1 9, CopyEvent.pushEv 9][j]? =
          some (CopyEvent.casSuccessEv 1 9) := by
  obtain ⟨s', hok⟩ : ∃ s', copy c3State 1 = .ok (9, s',
      [CopyEvent.memcpyEv 9 1, CopyEvent.setGrayEv 9,
        CopyEvent.casSuccessEv 1 9, CopyEvent.pushEv 9]) := ⟨_, rfl⟩
  have h := copy_grays_before_cas c3State 1 9 s' _ rfl hok (by decide)
  exact ⟨s', hok, h.2.1, h.2.2.1, h.2.2.2.1, h.1⟩

/-- Helper: a forwarding pointer reported by `GetFwdPtr` is in the lock
word. -/
theorem getFwdPtr_fwd (s : MarkState) (x w : Nat) (h : getFwdPtr s x = some w) :
    s.lockWord x = .fwd w := by
  unfold getFwdPtr at h
  split at h
  next a heq =>
    simp only [Option.some.injEq] at h
    rw [heq, h]
  · exact Option.noConfusion h

/-- Helper: what the post-CAS DCHECKs guarantee about the copy's location. -/
theorem installChecks_spec (s3 : MarkState) (toRef : Nat) (fallback : Bool)
    (h : installChecks s3 toRef fallback = .ok ()) :
    (fallback = false → s3.regionType toRef = .toSpace) ∧
    (fallback = true → s3.nonMovingHasAddress toRef = true) := by
  unfold installChecks at h
  by_cases h1 : ¬ fallback ∧ s3.regionType toRef ≠ .toSpace
  · rw [if_pos h1] at h
    exact Except.noConfusion h
  · rw [if_neg h1] at h
    by_cases h2 : fallback ∧ ¬ s3.nonMovingHasAddress toRef
    · rw [if_pos h2] at h
      exact Except.noConfusion h
    · push_neg at h1 h2
      constructor
      · intro hf
        exact h1 (by simp [hf])
      · intro hf
        exact h2 hf

/-- Helper: graying the copy keeps the continuous-space mark bitmap. -/
theorem grayTo_contBitmap (s0 : MarkState) (t : Nat) :
    (grayTo s0 t).contBitmap = s0.contBitmap := by
  unfold grayTo
  split <;> rfl

/-- Helper: schedule interference keeps the continuous-space mark bitmap. -/
theorem applyInterf_contBitmap (s1 : MarkState) (f : Nat) (i : Option LockWord) :
    (applyInterf s1 f i).contBitmap = s1.contBitmap := by
  cases i <;> rfl

/-- Helper: a successful CAS keeps the continuous-space mark bitmap, and the
DCHECKs locate the copy (to-space unless the fallback was taken, non-moving
space on the fallback). -/
theorem casStep_success_extra (s0 : MarkState) (old : LockWord) (fromRef toRef allocSize : Nat)
    (fallback : Bool) (interf : Option LockWord) (spurious : Bool)
    (sWin : MarkState) (evs : List CopyEvent)
    (h : casStep s0 old fromRef toRef allocSize fallback interf spurious =
      .ok (.success sWin evs)) :
    sWin.contBitmap = s0.contBitmap ∧
    (fallback = false → s0.regionType toRef = .toSpace) ∧
    (fallback = true → s0.nonMovingHasAddress toRef = true) := by
  unfold casStep at h
  by_cases hc : (applyInterf (grayTo s0 toRef) fromRef interf).lockWord fromRef = old ∧
      spurious = false
  · rw [if_pos hc] at h
    split at h
    · exact Except.noConfusion h
    next u hchecks =>
      simp only [Except.ok.injEq, CasOutcome.success.injEq] at h
      obtain ⟨hs, -⟩ := h
      subst hs
      obtain ⟨hc1, hc2⟩ := installChecks_spec _ _ _ (by cases u; exact hchecks)
      have hmr : (installFwd (applyInterf (grayTo s0 toRef) fromRef interf)
          fromRef toRef allocSize).regionType = s0.regionType := by
        show (applyInterf (grayTo s0 toRef) fromRef interf).regionType = s0.regionType
        rw [(applyInterf_sameMeta (grayTo s0 toRef) fromRef interf).2.1,
          (grayTo_sameMeta s0 toRef).2.1]
      have hmn : (installFwd (applyInterf (grayTo s0 toRef) fromRef interf)
          fromRef toRef allocSize).nonMovingHasAddress = s0.nonMovingHasAddress := by
        show (applyInterf (grayTo s0 toRef) fromRef interf).nonMovingHasAddress =
          s0.nonMovingHasAddress
        rw [(applyInterf_sameMeta (grayTo s0 toRef) fromRef interf).2.2.2.2.1,
          (grayTo_sameMeta s0 toRef).2.2.2.2.1]
      refine ⟨?_, ?_, ?_⟩
      · show (applyInterf (grayTo s0 toRef) fromRef interf).contBitmap = s0.contBitmap
        rw [applyInterf_contBitmap, grayTo_contBitmap]
      · intro hf
        rw [← hmr]
        exact hc1 hf
      · intro hf
        rw [← hmn]
        exact hc2 hf
  · rw [if_neg hc] at h
    simp only [Except.ok.injEq] at h
    exact CasOutcome.noConfusion h

/-- Helper: a failed CAS keeps the continuous-space mark bitmap, and the
from-space lock word afterwards is the scheduled write (or unchanged when no
write was scheduled). -/
theorem casStep_failure_extra (s0 : MarkState) (old : LockWord) (fromRef toRef allocSize : Nat)
    (fallback : Bool) (interf : Option LockWord) (spurious : Bool)
    (s2 : MarkState) (evs : List CopyEvent)
    (h : casStep s0 old fromRef toRef allocSize fallback interf spurious =
      .ok (.failure s2 evs)) :
    s2.contBitmap = s0.contBitmap ∧
    (interf = none → s2.lockWord fromRef = s0.lockWord fromRef) ∧
    (∀ lw, interf = some lw → s2.lockWord fromRef = lw) := by
  unfold casStep at h
  by_cases hc : (applyInterf (grayTo s0 toRef) fromRef interf).lockWord fromRef = old ∧
      spurious = false
  · rw [if_pos hc] at h
    split at h
    · exact Except.noConfusion h
    · simp only [Except.ok.injEq] at h
      exact CasOutcome.noConfusion h
  · rw [if_neg hc] at h
    simp only [Except.ok.injEq, CasOutcome.failure.injEq] at h
    obtain ⟨hs, -⟩ := h
    subst hs
    refine ⟨by rw [applyInterf_contBitmap, grayTo_contBitmap], ?_, ?_⟩
    · intro hi
      subst hi
      show (grayTo s0 toRef).lockWord fromRef = s0.lockWord fromRef
      rw [grayTo_lockWord]
    · intro lw hi
      subst hi
      simp [applyInterf]

/-- Helper: recycling a lost copy removes at most the abandoned block from
the continuous-space mark bitmap. -/
theorem recycleLostCopy_mem_contBitmap (s0 : MarkState) (toRef bytesAllocated : Nat)
    (fallback : Bool) (s1 : MarkState) (evr : List CopyEvent)
    (h : recycleLostCopy s0 toRef bytesAllocated fallback = .ok (s1, evr)) :
    ∀ v, v ≠ toRef → v ∈ s0.contBitmap → v ∈ s1.contBitmap := by
  intro v hne hv
  unfold recycleLostCopy at h
  cases fallback
  · rw [if_pos (by simp)] at h
    by_cases hto : s0.regionType toRef ≠ .toSpace
    · rw [if_pos hto] at h
      exact Except.noConfusion h
    · rw [if_neg hto] at h
      by_cases hlarge : bytesAllocated > kRegionSize
      · rw [if_pos hlarge] at h
        simp only [Except.ok.injEq, Prod.mk.injEq] at h
        obtain ⟨hs, -⟩ := h
        subst hs
        exact hv
      · rw [if_neg hlarge] at h
        simp only [Except.ok.injEq, Prod.mk.injEq] at h
        obtain ⟨hs, -⟩ := h
        subst hs
        exact hv
  · rw [if_neg (by simp)] at h
    split_ifs at h
    simp only [Except.ok.injEq, Prod.mk.injEq] at h
    obtain ⟨hs, -⟩ := h
    subst hs
    exact List.mem_erase_of_ne hne |>.mpr hv

/-- Helper: the lost path removes at most the abandoned block from the
continuous-space mark bitmap. -/
theorem lostStep_mem_contBitmap (s0 : MarkState) (toRef bytesAllocated : Nat)
    (fallback : Bool) (w : Nat) (s1 : MarkState) (evl : List CopyEvent)
    (h : lostStep s0 toRef bytesAllocated fallback w = .ok (s1, evl)) :
    ∀ v, v ≠ toRef → v ∈ s0.contBitmap → v ∈ s1.contBitmap := by
  unfold lostStep at h
  split at h
  · exact Except.noConfusion h
  · split at h
    · exact Except.noConfusion h
    next s1' evr hrec =>
      split at h
      · exact Except.noConfusion h
      · simp only [Except.ok.injEq, Prod.mk.injEq] at h
        obtain ⟨hs, -⟩ := h
        subst hs
        exact recycleLostCopy_mem_contBitmap _ _ _ _ _ _ hrec

/-- Helper: the allocation cascade only grows the continuous-space mark
bitmap, and the fallback leaves the new copy's bit set under a bitmap that
covers it. -/
theorem copyAllocate_contBitmap (s : MarkState) (allocSize toRef bytes : Nat) (fb : Bool)
    (s1 : MarkState)
    (h : copyAllocate s allocSize = .ok (toRef, bytes, fb, s1)) :
    (∀ v, v ∈ s.contBitmap → v ∈ s1.contBitmap) ∧
    (fb = true → s1.hasContinuousBitmap toRef = true ∧ toRef ∈ s1.contBitmap) := by
  unfold copyAllocate at h
  split at h
  · simp only [Except.ok.injEq, Prod.mk.injEq] at h
    obtain ⟨-, -, hfb, hs⟩ := h
    subst hs
    exact ⟨fun v hv => hv, fun hf => absurd (hfb ▸ hf) (by simp)⟩
  · split at h
    · exact Except.noConfusion h
    next addr s2 hsk =>
      simp only [Except.ok.injEq, Prod.mk.injEq] at h
      obtain ⟨-, -, hfb, hs⟩ := h
      subst hs
      obtain ⟨-, -, -, -, -, -, -, -, -, h10⟩ := allocateInSkippedBlock_proj _ _ _ _ hsk
      exact ⟨fun v hv => by rw [h10]; exact hv, fun hf => absurd (hfb ▸ hf) (by simp)⟩
    next s2 hsk =>
      obtain ⟨-, -, -, -, -, -, -, -, h9, h10⟩ := allocateInSkippedBlock_proj _ _ _ _ hsk
      split at h
      · exact Except.noConfusion h
      next addr nmBytes heq =>
        by_cases hb1 : ¬ s2.hasContinuousBitmap addr
        · rw [if_pos hb1] at h
          exact Except.noConfusion h
        · rw [if_neg hb1] at h
          by_cases hb2 : addr ∈ s2.contBitmap
          · rw [if_pos hb2] at h
            exact Except.noConfusion h
          · rw [if_neg hb2] at h
            simp only [Except.ok.injEq, Prod.mk.injEq] at h
            obtain ⟨haddr, -, -, hs⟩ := h
            subst hs
            constructor
            · intro v hv
              simp only [List.mem_cons]
              exact Or.inr (by rw [h10]; exact hv)
            · rintro -
              refine ⟨?_, ?_⟩
              · show s2.hasContinuousBitmap toRef = true
                rw [← haddr]
                exact not_not.mp hb1
              · show toRef ∈ addr :: s2.contBitmap
                rw [← haddr]
                exact List.mem_cons_self _ _

/-- A reference lies in to-space, or is a non-moving object marked in the
given snapshot of the continuous-space mark bitmap. -/
def NmClassified (s : MarkState) (bm : List Nat) (w : Nat) : Prop :=
  s.regionType w = .toSpace ∨
    (s.nonMovingHasAddress w = true ∧ s.hasContinuousBitmap w = true ∧ w ∈ bm)

/-- Helper: the forwarding loop returns a classified reference: a to-space
object, or a non-moving object marked in the resulting bitmap — provided any
forwarding pointer it can observe (already installed or scheduled) is
classified and, on the fallback path, the copy's bitmap bit was set by the
allocation. -/
theorem copyLoop_classify (fromRef toRef allocSize bytesAllocated : Nat) (fallback : Bool) :
    ∀ (sched : List (Option LockWord × Bool)) (u : MarkState) (ev : List CopyEvent)
      (r : Nat) (s' : MarkState) (ev' : List CopyEvent),
      copyLoop fromRef toRef allocSize bytesAllocated fallback sched u ev = .ok (r, s', ev') →
      (∀ w, u.lockWord fromRef = .fwd w → NmClassified u u.contBitmap w) →
      (∀ p ∈ sched, ∀ w, p.1 = some (LockWord.fwd w) → NmClassified u u.contBitmap w) →
      (fallback = true → u.hasContinuousBitmap toRef = true ∧ toRef ∈ u.contBitmap) →
      NmClassified u s'.contBitmap r := by
  intro sched
  induction sched with
  | nil =>
    intro u ev r s' ev' hok
    exact Except.noConfusion hok
  | cons p rest ih =>
    obtain ⟨interf, spurious⟩ := p
    intro u ev r s' ev' hok Hw Hs Hfb
    unfold copyLoop at hok
    split at hok
    next w' heq =>
      split at hok
      · exact Except.noConfusion hok
      next s1 evl hlost =>
        simp only [Except.ok.injEq, Prod.mk.injEq] at hok
        obtain ⟨hr, hs, -⟩ := hok
        subst hs
        subst hr
        obtain ⟨-, -, -, -, hne, -, -, -, -⟩ := lostStep_spec _ _ _ _ _ _ _ hlost
        rcases Hw w' heq with hcase | ⟨hn, hc, hm⟩
        · exact Or.inl hcase
        · refine Or.inr ⟨hn, hc, ?_⟩
          show w' ∈ s1.contBitmap
          exact lostStep_mem_contBitmap _ _ _ _ _ _ _ hlost w' hne hm
    next c heq =>
      split at hok
      · exact Except.noConfusion hok
      next sWin evs hcas =>
        simp only [Except.ok.injEq, Prod.mk.injEq] at hok
        obtain ⟨hr, hs, -⟩ := hok
        subst hs
        subst hr
        obtain ⟨hwb, hfb0, hfb1⟩ := casStep_success_extra _ _ _ _ _ _ _ _ _ _ hcas
        by_cases hfb : fallback = true
        · obtain ⟨hcb1, hcb2⟩ := Hfb hfb
          refine Or.inr ⟨hfb1 hfb, hcb1, ?_⟩
          show toRef ∈ sWin.contBitmap
          rw [hwb]
          exact hcb2
        · have hfb' : fallback = false := by
            cases fallback
            · rfl
            · exact absurd rfl hfb
          exact Or.inl (hfb0 hfb')
      next s2 evs hcas =>
        have hmeta : SameMeta u s2 :=
          sameMeta_trans (memcpyStep_sameMeta u fromRef toRef)
            ((casStep_sameMeta _ _ _ _ _ _ _ _ _ hcas).2 s2 evs rfl)
        obtain ⟨-, m2, -, -, m5, m6, -, -, -, -⟩ := hmeta
        obtain ⟨hcb0, hlwnone, hlwsome⟩ := casStep_failure_extra _ _ _ _ _ _ _ _ _ _ hcas
        have hcb : s2.contBitmap = u.contBitmap := hcb0
        have conv : ∀ w, NmClassified u u.contBitmap w → NmClassified s2 s2.contBitmap w := by
          intro w hcl
          unfold NmClassified at hcl ⊢
          rw [m2, m5, m6, hcb]
          exact hcl
        have Hw2 : ∀ w, s2.lockWord fromRef = .fwd w → NmClassified s2 s2.contBitmap w := by
          intro w hw2
          cases interf with
          | none =>
            have hx : s2.lockWord fromRef = LockWord.word c := by
              rw [hlwnone rfl, memcpyStep_lockWord_self, heq]
            rw [hw2] at hx
            exact LockWord.noConfusion hx
          | some lw =>
            have hx : s2.lockWord fromRef = lw := hlwsome lw rfl
            rw [hw2] at hx
            exact conv w (Hs (some lw, spurious) (List.mem_cons_self _ _) w (by rw [← hx]))
        have Hs2 : ∀ p ∈ rest, ∀ w, p.1 = some (LockWord.fwd w) →
            NmClassified s2 s2.contBitmap w := by
          intro p hp w hpw
          exact conv w (Hs p (List.mem_cons_of_mem _ hp) w hpw)
        have Hfb2 : fallback = true →
            s2.hasContinuousBitmap toRef = true ∧ toRef ∈ s2.contBitmap := by
          intro hf
          obtain ⟨ha, hb⟩ := Hfb hf
          rw [m6, hcb]
          exact ⟨ha, hb⟩
        have hres := ih s2 _ r s' ev' hok Hw2 Hs2 Hfb2
        unfold NmClassified at hres ⊢
        rw [m2, m5, m6] at hres
        exact hres

/-- Helper: under the forwarding invariant, `Copy` returns a classified
reference: a to-space object, or a non-moving object marked in the resulting
bitmap. -/
theorem copy_classify (s : MarkState) (fromRef t : Nat) (s' : MarkState) (ev : List CopyEvent)
    (hw : ∀ w, s.lockWord fromRef = .fwd w → fwdTargetOk s w)
    (hsched : ∀ p ∈ s.copySched, ∀ w, p.1 = some (LockWord.fwd w) → fwdTargetOk s w)
    (hok : copy s fromRef = .ok (t, s', ev)) :
    NmClassified s s'.contBitmap t := by
  unfold copy at hok
  by_cases hreg : s.regionType fromRef ≠ .fromSpace
  · rw [if_pos hreg] at hok
    exact Except.noConfusion hok
  · rw [if_neg hreg] at hok
    split at hok
    · exact Except.noConfusion hok
    next toRef bytes fb s1 halloc =>
      obtain ⟨-, m2, -, -, m5, m6, -, -, -, -⟩ := copyAllocate_sameMeta _ _ _ _ _ _ halloc
      obtain ⟨-, -, p3, p4, -, -, -⟩ := copyAllocate_proj _ _ _ _ _ _ halloc
      obtain ⟨hmono, hfb⟩ := copyAllocate_contBitmap _ _ _ _ _ _ halloc
      have conv : ∀ w, fwdTargetOk s w → NmClassified s1 s1.contBitmap w := by
        intro w hcl
        unfold fwdTargetOk at hcl
        unfold NmClassified
        rw [m2, m5, m6]
        rcases hcl with h | ⟨h1, h2, h3⟩
        · exact Or.inl h
        · exact Or.inr ⟨h1, h2, hmono w h3⟩
      have Hw1 : ∀ w, s1.lockWord fromRef = .fwd w → NmClassified s1 s1.contBitmap w := by
        intro w hw1
        exact conv w (hw w (by rw [← p3]; exact hw1))
      have Hs1 : ∀ p ∈ s1.copySched, ∀ w, p.1 = some (LockWord.fwd w) →
          NmClassified s1 s1.contBitmap w := by
        intro p hp w hpw
        exact conv w (hsched p (by rw [← p4]; exact hp) w hpw)
      have hres := copyLoop_classify fromRef toRef (roundUp (s.sizeOf fromRef) kAlignment)
        bytes fb s1.copySched s1 [] t s' ev hok Hw1 Hs1 hfb
      unfold NmClassified at hres ⊢
      rw [m2, m5, m6] at hres
      exact hres

/-- Helper: after `nmBitmapSet` (and a mark-stack push) the bitmap test on
the set bit succeeds. -/
theorem nmBitmapTest_after_set (u : MarkState) (x : Nat) :
    nmBitmapTest (pushMarkStack (nmBitmapSet u x) x) x = true := by
  by_cases hc : u.hasContinuousBitmap x
  · unfold nmBitmapSet
    rw [if_pos hc]
    unfold pushMarkStack nmBitmapTest
    simp [hc]
  · unfold nmBitmapSet
    rw [if_neg hc]
    unfold pushMarkStack nmBitmapTest
    simp [hc]

/-- Helper: `MarkNonMoving` of an already-marked non-immune non-region object
returns it with the state unchanged. -/
theorem markNonMoving_marked (s1 : MarkState) (x : Nat)
    (hreg : s1.regionType x = .nonRegion) (himm : s1.immune x = false)
    (htest : nmBitmapTest s1 x = true) :
    markNonMoving s1 x = .ok (x, s1) := by
  unfold markNonMoving
  rw [if_neg (by rw [hreg]; simp), if_neg (by rw [himm]; simp), if_pos htest]

/-- Helper: `MarkNonMoving` returns its argument, and marks it so that a
second `MarkNonMoving` on the resulting state returns it with no further
change. -/
theorem markNonMoving_post (s : MarkState) (x r : Nat) (s1 : MarkState)
    (h : markNonMoving s x = .ok (r, s1)) :
    r = x ∧ markNonMoving s1 x = .ok (x, s1) := by
  have h0 := h
  unfold markNonMoving at h
  by_cases c1 : s.regionType x ≠ .nonRegion
  · rw [if_pos c1] at h
    exact Except.noConfusion h
  · rw [if_neg c1] at h
    by_cases c2 : s.immune x = true
    · rw [if_pos c2] at h
      exact Except.noConfusion h
    · rw [if_neg c2] at h
      have hreg : s.regionType x = .nonRegion := not_not.mp c1
      have himm : s.immune x = false := by
        cases hx : s.immune x
        · rfl
        · exact absurd hx c2
      by_cases c3 : nmBitmapTest s x = true
      · rw [if_pos c3] at h
        simp only [Except.ok.injEq, Prod.mk.injEq] at h
        obtain ⟨hr, hs⟩ := h
        subst hs
        exact ⟨hr.symm, markNonMoving_marked s x hreg himm c3⟩
      · rw [if_neg c3] at h
        by_cases c4 : isOnAllocStack s x = true
        · rw [if_pos c4] at h
          by_cases c5 : s.useBaker ∧ s.rb x ≠ .white
          · rw [if_pos c5] at h
            exact Except.noConfusion h
          · rw [if_neg c5] at h
            simp only [Except.ok.injEq, Prod.mk.injEq] at h
            obtain ⟨hr, hs⟩ := h
            subst hs
            rw [← hr] at h0
            exact ⟨hr.symm, h0⟩
        · rw [if_neg c4] at h
          by_cases c6 : s.useBaker ∧ nmBitmapTest s x = true
          · rw [if_pos c6] at h
            simp only [Except.ok.injEq, Prod.mk.injEq] at h
            obtain ⟨hr, hs⟩ := h
            subst hs
            exact ⟨hr.symm, markNonMoving_marked s x hreg himm c6.2⟩
          · rw [if_neg c6] at h
            by_cases c7 : s.useBaker ∧ s.rb x = .white
            · rw [if_pos c7] at h
              by_cases c8 : nmBitmapTest s x = true
              · rw [if_pos c8] at h
                simp only [Except.ok.injEq, Prod.mk.injEq] at h
                obtain ⟨hr, hs⟩ := h
                subst hs
                refine ⟨hr.symm, markNonMoving_marked _ x ?_ ?_ ?_⟩
                · exact hreg
                · exact himm
                · exact c8
              · rw [if_neg c8] at h
                simp only [Except.ok.injEq, Prod.mk.injEq] at h
                obtain ⟨hr, hs⟩ := h
                subst hs
                refine ⟨hr.symm, markNonMoving_marked _ x ?_ ?_ ?_⟩
                · show (nmBitmapSet (grayObj s x) x).regionType x = .nonRegion
                  rw [(sameMeta_nmBitmapSet (grayObj s x) x).2.1]
                  exact hreg
                · show (nmBitmapSet (grayObj s x) x).immune x = false
                  rw [(sameMeta_nmBitmapSet (grayObj s x) x).2.2.2.1]
                  exact himm
                · exact nmBitmapTest_after_set (grayObj s x) x
            · rw [if_neg c7] at h
              by_cases c9 : s.useBaker = true
              · rw [if_pos c9] at h
                by_cases c10 : nmBitmapTest s x = true
                · rw [if_pos c10] at h
                  simp only [Except.ok.injEq, Prod.mk.injEq] at h
                  obtain ⟨hr, hs⟩ := h
                  subst hs
                  exact ⟨hr.symm, markNonMoving_marked s x hreg himm c10⟩
                · rw [if_neg c10] at h
                  by_cases c11 : s.rb x = .gray
                  · rw [if_pos c11] at h
                    simp only [Except.ok.injEq, Prod.mk.injEq] at h
                    obtain ⟨hr, hs⟩ := h
                    subst hs
                    refine ⟨hr.symm, markNonMoving_marked _ x ?_ ?_ ?_⟩
                    · show (nmBitmapSet s x).regionType x = .nonRegion
                      rw [(sameMeta_nmBitmapSet s x).2.1]
                      exact hreg
                    · show (nmBitmapSet s x).immune x = false
                      rw [(sameMeta_nmBitmapSet s x).2.2.2.1]
                      exact himm
                    · exact nmBitmapTest_after_set s x
                  · rw [if_neg c11] at h
                    exact Except.noConfusion h
              · rw [if_neg c9] at h
                by_cases c12 : nmBitmapTest s x = true
                · rw [if_pos c12] at h
                  simp only [Except.ok.injEq, Prod.mk.injEq] at h
                  obtain ⟨hr, hs⟩ := h
                  subst hs
                  exact ⟨hr.symm, markNonMoving_marked s x hreg himm c12⟩
                · rw [if_neg c12] at h
                  simp only [Except.ok.injEq, Prod.mk.injEq] at h
                  obtain ⟨hr, hs⟩ := h
                  subst hs
                  refine ⟨hr.symm, markNonMoving_marked _ x ?_ ?_ ?_⟩
                  · show (nmBitmapSet s x).regionType x = .nonRegion
                    rw [(sameMeta_nmBitmapSet s x).2.1]
                    exact hreg
                  · show (nmBitmapSet s x).immune x = false
                    rw [(sameMeta_nmBitmapSet s x).2.2.2.1]
                    exact himm
                  · exact nmBitmapTest_after_set s x

/-- Helper: graying an object keeps the unevac region bitmap. -/
theorem grayTo_regionBitmap (s0 : MarkState) (t : Nat) :
    (grayTo s0 t).regionBitmap = s0.regionBitmap := by
  unfold grayTo
  split <;> rfl

/-- Helper: `Mark` of an already-marked reference returns it with the state
unchanged (to-space objects, marked unevac objects, marked immune objects,
marked non-moving objects), and `Mark` of a non-immune non-region object is
`MarkNonMoving`. -/
theorem mark_marked (u : MarkState) (y : Nat) :
    (u.regionType y = .toSpace → mark u (some y) = .ok (some y, u)) ∧
    (u.regionType y = .unevacFromSpace → y ∈ u.regionBitmap →
      mark u (some y) = .ok (some y, u)) ∧
    (u.regionType y = .nonRegion → u.immune y = true → y ∈ u.contBitmap →
      mark u (some y) = .ok (some y, u)) ∧
    (u.regionType y = .nonRegion → u.immune y = false → nmBitmapTest u y = true →
      mark u (some y) = .ok (some y, u)) ∧
    (∀ s2, u.regionType y = .nonRegion → u.immune y = false →
      markNonMoving u y = .ok (y, s2) → mark u (some y) = .ok (some y, s2)) := by
  refine ⟨?_, ?_, ?_, ?_, ?_⟩
  · intro h
    simp only [mark]
    rw [h]
  · intro h hmem
    simp only [mark]
    rw [h, if_pos hmem]
  · intro h himm hmem
    simp only [mark]
    rw [h, if_pos himm, if_pos hmem]
  · intro h himm htest
    have hni : ¬ (u.immune y = true) := by rw [himm]; simp
    simp only [mark]
    rw [h, if_neg hni, markNonMoving_marked u y h himm htest]
  · intro s2 h himm hmm
    have hni : ¬ (u.immune y = true) := by rw [himm]; simp
    simp only [mark]
    rw [h, if_neg hni, hmm]

/-- C8: under the forwarding invariant, `Mark` is idempotent: `Mark` of the
reference a successful `Mark` returned yields the same reference again; in
particular `Mark` of a to-space reference returns it verbatim, `Mark` of a
forwarded from-space object returns the forwarding address, and `Mark` of an
unevac-from-space or non-region (immune or non-moving) object returns the
object itself. -/
theorem mark_idempotent (s : MarkState) (x r : Nat) (s' : MarkState)
    (hwf : WFState s)
    (hok : mark s (some x) = .ok (some r, s')) :
    (∃ s2, mark s' (some r) = .ok (some r, s2)) ∧
    (s.regionType x = .toSpace → r = x) ∧
    (∀ w, s.regionType x = .fromSpace → getFwdPtr s x = some w → r = w) ∧
    (s.regionType x = .unevacFromSpace → r = x) ∧
    (s.regionType x = .nonRegion → r = x) := by
  obtain ⟨hwf1, hwf2, hwf3⟩ := hwf
  simp only [mark] at hok
  split at hok
  next heq =>
    simp only [Except.ok.injEq, Prod.mk.injEq, Option.some.injEq] at hok
    obtain ⟨hx, hs⟩ := hok
    subst hs
    refine ⟨?_, fun _ => hx.symm,
      fun w hfrom _ => RegionType.noConfusion (heq.symm.trans hfrom),
      fun h => RegionType.noConfusion (heq.symm.trans h),
      fun h => RegionType.noConfusion (heq.symm.trans h)⟩
    rw [← hx]
    exact ⟨s, (mark_marked s x).1 heq⟩
  next heq =>
    split at hok
    next w heq2 =>
      simp only [Except.ok.injEq, Prod.mk.injEq, Option.some.injEq] at hok
      obtain ⟨hw, hs⟩ := hok
      subst hs
      have hlw := getFwdPtr_fwd s x w heq2
      have hsec : ∃ s2, mark s (some w) = .ok (some w, s2) := by
        rcases hwf1 x w hlw with hto | ⟨hnm, hcb, hmem⟩
        · exact ⟨s, (mark_marked s w).1 hto⟩
        · obtain ⟨hregw, himmw⟩ := hwf3 w hnm
          have htestw : nmBitmapTest s w = true := by
            unfold nmBitmapTest
            rw [if_pos hcb]
            exact decide_eq_true hmem
          exact ⟨s, (mark_marked s w).2.2.2.1 hregw himmw htestw⟩
      refine ⟨?_, fun h => RegionType.noConfusion (heq.symm.trans h),
        fun w' hfrom hf => hw.symm.trans (Option.some.inj (heq2.symm.trans hf)),
        fun h => RegionType.noConfusion (heq.symm.trans h),
        fun h => RegionType.noConfusion (heq.symm.trans h)⟩
      rw [← hw]
      exact hsec
    next heq2 =>
      split at hok
      · exact Except.noConfusion hok
      next t s1 ev hcopy =>
        simp only [Except.ok.injEq, Prod.mk.injEq, Option.some.injEq] at hok
        obtain ⟨ht, hs⟩ := hok
        subst hs
        obtain ⟨-, m2, -, m4, -, m6, -, -, -, -⟩ := copy_sameMeta _ _ _ _ _ hcopy
        have hcl := copy_classify s x t s1 ev (fun w hw => hwf1 x w hw) hwf2 hcopy
        have hsec : ∃ s2, mark s1 (some t) = .ok (some t, s2) := by
          rcases hcl with hto | ⟨hnm, hcb, hmem⟩
          · exact ⟨s1, (mark_marked s1 t).1 (by rw [m2]; exact hto)⟩
          · obtain ⟨hregt, himmt⟩ := hwf3 t hnm
            have htest1 : nmBitmapTest s1 t = true := by
              unfold nmBitmapTest
              rw [if_pos (by rw [m6]; exact hcb)]
              exact decide_eq_true hmem
            exact ⟨s1, (mark_marked s1 t).2.2.2.1 (by rw [m2]; exact hregt)
              (by rw [m4]; exact himmt) htest1⟩
        refine ⟨?_, fun h => RegionType.noConfusion (heq.symm.trans h),
          fun w' hfrom hf => Option.noConfusion (heq2.symm.trans hf),
          fun h => RegionType.noConfusion (heq.symm.trans h),
          fun h => RegionType.noConfusion (heq.symm.trans h)⟩
        rw [← ht]
        exact hsec
  next heq =>
    by_cases hmem : x ∈ s.regionBitmap
    · rw [if_pos hmem] at hok
      simp only [Except.ok.injEq, Prod.mk.injEq, Option.some.injEq] at hok
      obtain ⟨hx, hs⟩ := hok
      subst hs
      refine ⟨?_, fun h => RegionType.noConfusion (heq.symm.trans h),
        fun w hfrom _ => RegionType.noConfusion (heq.symm.trans hfrom),
        fun _ => hx.symm,
        fun h => RegionType.noConfusion (heq.symm.trans h)⟩
      rw [← hx]
      exact ⟨s, (mark_marked s x).2.1 heq hmem⟩
    · rw [if_neg hmem] at hok
      simp only [Except.ok.injEq, Prod.mk.injEq, Option.some.injEq] at hok
      obtain ⟨hx, hs⟩ := hok
      subst hs
      have hsec : mark
          (pushMarkStack (grayTo { s with regionBitmap := x :: s.regionBitmap } x) x)
          (some x) = .ok (some x,
            pushMarkStack (grayTo { s with regionBitmap := x :: s.regionBitmap } x) x) := by
        apply (mark_marked _ x).2.1
        · show (grayTo { s with regionBitmap := x :: s.regionBitmap } x).regionType x =
            .unevacFromSpace
          rw [(grayTo_sameMeta _ x).2.1]
          exact heq
        · show x ∈ (grayTo { s with regionBitmap := x :: s.regionBitmap } x).regionBitmap
          rw [grayTo_regionBitmap]
          exact List.mem_cons_self _ _
      refine ⟨?_, fun h => RegionType.noConfusion (heq.symm.trans h),
        fun w hfrom _ => RegionType.noConfusion (heq.symm.trans hfrom),
        fun _ => hx.symm,
        fun h => RegionType.noConfusion (heq.symm.trans h)⟩
      rw [← hx]
      exact ⟨_, hsec⟩
  next heq =>
    by_cases himm : s.immune x = true
    · rw [if_pos himm] at hok
      by_cases hmem : x ∈ s.contBitmap
      · rw [if_pos hmem] at hok
        simp only [Except.ok.injEq, Prod.mk.injEq, Option.some.injEq] at hok
        obtain ⟨hx, hs⟩ := hok
        subst hs
        refine ⟨?_, fun h => RegionType.noConfusion (heq.symm.trans h),
          fun w hfrom _ => RegionType.noConfusion (heq.symm.trans hfrom),
          fun h => RegionType.noConfusion (heq.symm.trans h),
          fun _ => hx.symm⟩
        rw [← hx]
        exact ⟨s, (mark_marked s x).2.2.1 heq himm hmem⟩
      · rw [if_neg hmem] at hok
        simp only [Except.ok.injEq, Prod.mk.injEq, Option.some.injEq] at hok
        obtain ⟨hx, hs⟩ := hok
        subst hs
        have hsec : mark
            (pushMarkStack (grayTo { s with contBitmap := x :: s.contBitmap } x) x)
            (some x) = .ok (some x,
              pushMarkStack (grayTo { s with contBitmap := x :: s.contBitmap } x) x) := by
          apply (mark_marked _ x).2.2.1
          · show (grayTo { s with contBitmap := x :: s.contBitmap } x).regionType x =
              .nonRegion
            rw [(grayTo_sameMeta _ x).2.1]
            exact heq
          · show (grayTo { s with contBitmap := x :: s.contBitmap } x).immune x = true
            rw [(grayTo_sameMeta _ x).2.2.2.1]
            exact himm
          · show x ∈ (grayTo { s with contBitmap := x :: s.contBitmap } x).contBitmap
            rw [grayTo_contBitmap]
            exact List.mem_cons_self _ _
        refine ⟨?_, fun h => RegionType.noConfusion (heq.symm.trans h),
          fun w hfrom _ => RegionType.noConfusion (heq.symm.trans hfrom),
          fun h => RegionType.noConfusion (heq.symm.trans h),
          fun _ => hx.symm⟩
        rw [← hx]
        exact ⟨_, hsec⟩
    · rw [if_neg himm] at hok
      split at hok
      · exact Except.noConfusion hok
      next rr s1 hmm0 =>
        simp only [Except.ok.injEq, Prod.mk.injEq, Option.some.injEq] at hok
        obtain ⟨hr0, hs⟩ := hok
        subst hs
        obtain ⟨hrx, hsecond0⟩ := markNonMoving_post s x rr s1 hmm0
        obtain ⟨-, m2, -, m4, -, -, -, -, -, -⟩ := markNonMoving_sameMeta _ _ _ _ hmm0
        have himmf : s.immune x = false := by
          cases hb : s.immune x
          · rfl
          · exact absurd hb himm
        have hsec := (mark_marked s1 x).2.2.2.2 s1 (by rw [m2]; exact heq)
          (by rw [m4]; exact himmf) hsecond0
        have hrex : r = x := hr0.symm.trans hrx
        refine ⟨?_, fun h => RegionType.noConfusion (heq.symm.trans h),
          fun w hfrom _ => RegionType.noConfusion (heq.symm.trans hfrom),
          fun h => RegionType.noConfusion (heq.symm.trans h),
          fun _ => hrex⟩
        rw [hrex]
        exact ⟨s1, hsec⟩


/-- Witness for C8: on the well-formed heap `c3State`, marking the from-space
object 1 copies it to 9, and marking 9 again returns 9 with the state
unchanged. -/
theorem mark_idempotent_witness :
    ∃ s' s2, mark c3State (some 1) = .ok (some 9, s') ∧
      mark s' (some 9) = .ok (some 9, s2) := by
  have hwf : WFState c3State := by
    refine ⟨?_, ?_, ?_⟩
    · intro a w h
      exact LockWord.noConfusion h
    · intro p hp w hpw
      simp only [c3State, List.mem_singleton] at hp
      subst hp
      exact Option.noConfusion hpw
    · intro w h
      exact Bool.noConfusion h
  obtain ⟨s', hok⟩ : ∃ s', mark c3State (some 1) = .ok (some 9, s') := ⟨_, rfl⟩
  obtain ⟨⟨s2, h2⟩, -⟩ := mark_idempotent c3State 1 9 s' hwf hok
  exact ⟨s', s2, hok, h2⟩

end CC
